import Mathlib

/-!
Verification of the Prediction and Plan Optimizer core of the battery
prediction app (predbat.py), against its natural-language specification.

The Python source is shallowly embedded:
* floating point values become rationals;
* Python dicts keyed by minute become functions of type N -> Option Q,
  where `none` models a missing key;
* fallible code (dict KeyError, list IndexError, ZeroDivisionError,
  unbound locals) is modelled in the Option monad: `none` models a
  raised exception;
* the sentinel value -1 returned by `in_charge_window` is modelled as
  `none`, and a nonnegative window index as `some n`;
* pure I/O (logging, writing Home Assistant entities, timestamp
  formatting) and the write-only telemetry dictionaries that feed it
  are omitted.
-/

namespace Predbat

/-- Rounds up to 2 decimal places, from the source function `dp2`
(`math.ceil(value*100)/100`). -/
def dp2 (value : ℚ) : ℚ := (⌈value * 100⌉ : ℚ) / 100

/-- Rounds up to 3 decimal places, from the source function `dp3`. -/
def dp3 (value : ℚ) : ℚ := (⌈value * 1000⌉ : ℚ) / 1000

/-- A charge or discharge window: `start` and `end_` are minute offsets
from local midnight (the source stores them in a dict with keys
`start`, `end` and, for scanned windows, `average`). -/
structure Window where
  start : ℕ
  end_ : ℕ
  average : ℚ
deriving DecidableEq, Repr

/-- An Octopus intelligent dispatch slot with its minute bounds already
resolved (the source caches `start_minutes` and `end_minutes` inside the
slot dict; the timestamp parsing that produces them is collaborator
input normalization and is outside the embedded core). -/
structure OctSlot where
  start_minutes : ℕ
  end_minutes : ℕ
  chargeKwh : Option ℚ
deriving DecidableEq, Repr

/-- Python true division: `none` models ZeroDivisionError. -/
def pyDiv (a b : ℚ) : Option ℚ := if b = 0 then none else some (a / b)

/-- Python int() truncation toward zero applied to a rational. -/
def intTrunc (q : ℚ) : ℤ := if 0 ≤ q then ⌊q⌋ else ⌈q⌉

/-- Containment test used by `in_charge_window`: the window is the
half-open interval from `start` (inclusive) to `end_` (exclusive). -/
def winContains (w : Window) (minute_abs : ℕ) : Prop :=
  w.start ≤ minute_abs ∧ minute_abs < w.end_

instance (w : Window) (m : ℕ) : Decidable (winContains w m) := by
  unfold winContains; infer_instance

/-- Loop body of `in_charge_window`, carrying the running index
`window_n`. -/
def icwGo (minute_abs : ℕ) : ℕ → List Window → Option ℕ
  | _, [] => none
  | window_n, w :: rest =>
      if winContains w minute_abs then some window_n
      else icwGo minute_abs (window_n + 1) rest

/-- From the source `in_charge_window`: the index of the first window
containing the minute, scanning in list order; `none` models the -1
returned when no window contains it. -/
def in_charge_window (charge_window : List Window) (minute_abs : ℕ) : Option ℕ :=
  icwGo minute_abs 0 charge_window

/-- Loop body of `clean_incrementing_reverse`: processes the values in
reverse index order (oldest sample first), threading `last` and the
running `increment`, and emits the increment stored at each index. -/
def cleanGo : ℚ → ℚ → List ℚ → List ℚ
  | _, _, [] => []
  | last, increment, nxt :: rest =>
      let increment' := if nxt ≥ last then increment + (nxt - last) else increment
      increment' :: cleanGo nxt increment' rest

/-- From the source `clean_incrementing_reverse`, specialized to a dense
series with keys `0..N-1` represented as a list: removes the resets of a
backwards-running incrementing sensor. The `last` seed is
`data[max(data)]`, the last element; an empty input (on which Python
`max` raises) returns the empty list and is excluded by hypothesis in
the theorems. -/
def clean_incrementing_reverse (data : List ℚ) : List ℚ :=
  match data.getLast? with
  | none => []
  | some lastVal => (cleanGo lastVal 0 data.reverse).reverse

/-- From the source `get_from_incrementing`: the per-minute value of an
incrementing series, `data[index] - data[index+1]`, after wrapping a
negative index by repeatedly adding 24*60. A missing key (KeyError) is
`none`. -/
def get_from_incrementing (data : ℕ → Option ℚ) (index : ℤ) : Option ℚ :=
  let i : ℕ := (if index < 0 then index % (24 * 60) else index).toNat
  match data i, data (i + 1) with
  | some a, some b => some (a - b)
  | _, _ => none

/-- Delta accumulated by one `clean_incrementing_reverse` step, read off
a processing chain whose element `j` is `last` and whose element `j+1`
is `nxt`: the increment grows by `nxt - last` exactly when
`nxt >= last`. -/
def chainDelta (l : List ℚ) (j : ℕ) : ℚ :=
  if l.getD j 0 ≤ l.getD (j + 1) 0 then l.getD (j + 1) 0 - l.getD j 0 else 0

/-- Modelled from the claim wording for C9: the net forward increment of
the original series with resets removed, i.e. the sum of the nonnegative
forward deltas `data[i] - data[i+1]` (a backward series runs forward in
time as the index decreases). -/
def netForwardIncrement (data : List ℚ) : ℚ :=
  ∑ i ∈ Finset.range (data.length - 1),
    if data.getD (i + 1) 0 ≤ data.getD i 0 then data.getD i 0 - data.getD (i + 1) 0 else 0

/-- Loop body of `discard_unused_charge_slots`. The Python loop walks
index `window_n` over `charge_limit_best`, indexing the parallel window
list only inside the kept branch; walking both lists in lockstep is the
same access pattern, with `none` modelling the IndexError raised when a
kept slot has no parallel window. -/
def dusGo (reserve : ℚ) : List ℚ → List Window → Option (List ℚ × List Window)
  | [], _ => some ([], [])
  | limit :: cls, cws =>
      if limit > dp2 reserve then
        match cws with
        | w :: cwt => (dusGo reserve cls cwt).map (fun pr => (limit :: pr.1, w :: pr.2))
        | [] => none
      else dusGo reserve cls cws.tail

/-- From the source `discard_unused_charge_slots`: keeps exactly the
slots whose limit is strictly above `dp2 reserve`. -/
def discard_unused_charge_slots (charge_limit_best : List ℚ) (charge_window_best : List Window)
    (reserve : ℚ) : Option (List ℚ × List Window) :=
  dusGo reserve charge_limit_best charge_window_best

/-- One minute of the `rate_replicate` loop: a minute already present is
left alone, otherwise it is filled from `minute mod 24*60` in the curve
built so far, falling back to the house rate. -/
def rrStep (metric_house : ℚ) (r : ℕ → Option ℚ) (minute : ℕ) : ℕ → Option ℚ :=
  match r minute with
  | some _ => r
  | none =>
      Function.update r minute
        (match r (minute % (24 * 60)) with
         | some v => some v
         | none => some metric_house)

/-- From the source `rate_replicate`: extends the rate curve minute by
minute over `[0, forecast_minutes + 24*60)`. -/
def rate_replicate (forecast_minutes : ℕ) (metric_house : ℚ) (rates : ℕ → Option ℚ) :
    ℕ → Option ℚ :=
  (List.range (forecast_minutes + 24 * 60)).foldl (rrStep metric_house) rates

/-- The configuration and state fields of the app object (`self.*`) that
`run_prediction` and the optimizer read. Rate curves are minute dicts
modelled as functions; `car_charging_energy` is `none` when the dict is
empty (Python truthiness). -/
structure Params where
  minutes_now : ℕ
  forecast_minutes : ℕ
  days_previous : ℕ
  soc_kw : ℚ
  soc_max : ℚ
  reserve : ℚ
  charge_rate : ℚ
  discharge_rate : ℚ
  battery_loss : ℚ
  charge_enable : Bool
  metric_house : ℚ
  metric_battery : ℚ
  metric_export : ℚ
  metric_min_improvement : ℚ
  cost_today_sofar : ℚ
  rate_import : ℕ → Option ℚ
  rate_export : ℕ → Option ℚ
  car_charging_hold : Bool
  car_charging_energy : Option (ℕ → Option ℚ)
  car_charging_threshold : ℚ
  car_charging_rate : ℚ
  octopus_slots : List OctSlot
  rate_min : ℚ
  best_soc_min : ℚ
  best_soc_keep : ℚ
  best_soc_margin : ℚ
  best_soc_step : ℚ
  pv_metric10_weight : ℚ

/-- Loop body of `in_octopus_slot`: returns the car load of the first
slot containing the minute (the division by `slot_hours` is Python true
division and can only be reached with a nonempty slot). -/
def iosGo (car_charging_rate : ℚ) : List OctSlot → ℕ → Option ℚ
  | [], _ => some 0
  | slot :: rest, minute =>
      let slot_minutes : ℚ := (slot.end_minutes : ℚ) - (slot.start_minutes : ℚ)
      let slot_hours : ℚ := slot_minutes / 60
      if slot.start_minutes ≤ minute ∧ minute < slot.end_minutes then
        pyDiv |slot.chargeKwh.getD (car_charging_rate * slot_hours)| slot_hours
      else iosGo car_charging_rate rest minute

/-- From the source `in_octopus_slot`: the expected car charging load at
a given minute, 0 outside every slot. -/
def in_octopus_slot (p : Params) (minute : ℕ) : Option ℚ :=
  iosGo p.car_charging_rate p.octopus_slots minute

/-- Loop body of `max_charge_windows`, carrying the running index and
the best count seen. -/
def mcwGo (end_record_abs : ℕ) : ℕ → ℕ → List Window → ℕ
  | _, acc, [] => acc
  | window_n, acc, w :: rest =>
      mcwGo end_record_abs (window_n + 1)
        (if end_record_abs ≥ w.end_ then window_n + 1 else acc) rest

/-- From the source `max_charge_windows`: how many charge windows the
recording period covers (one past the last window whose end lies within
it). -/
def max_charge_windows (end_record_abs : ℕ) (charge_window : List Window) : ℕ :=
  mcwGo end_record_abs 0 0 charge_window

/-- From the source `record_length`: the number of minutes from now over
which results are recorded, truncated at the start of the first window
not fully covered by the forecast. -/
def record_length (p : Params) (charge_window : List Window) : ℤ :=
  let end_record := p.forecast_minutes
  let max_windows := max_charge_windows end_record charge_window
  let end_record' :=
    if charge_window.length > max_windows then
      match charge_window[max_windows]? with
      | some w => min end_record w.start
      | none => end_record
    else end_record
  (end_record' : ℤ) - (p.minutes_now : ℤ)

/-- Sum of the forward PV curve over the minutes of one step; a missing
minute contributes 0 (`pv_forecast_minute.get(key, 0.0)`). -/
def pvStep (pv : ℕ → Option ℚ) (minute_absolute : ℕ) : ℕ → ℚ
  | 0 => 0
  | k + 1 => pvStep pv minute_absolute k + (pv (minute_absolute + k)).getD 0

/-- Sum of per-minute values of a backward incrementing series over one
step; any missing key is a KeyError (`none`). -/
def loadStep (data : ℕ → Option ℚ) (minute_yesterday : ℤ) : ℕ → Option ℚ
  | 0 => some 0
  | k + 1 =>
      match loadStep data minute_yesterday k,
        get_from_incrementing data (minute_yesterday - (k : ℤ)) with
      | some acc, some v => some (acc + v)
      | _, _ => none

/-- Rate lookup with fallback, modelling
`rates[minute] if minute in rates else fallback`. -/
def rateOr (rate : ℕ → Option ℚ) (minute_absolute : ℕ) (fallback : ℚ) : ℚ :=
  match rate minute_absolute with
  | some r => r
  | none => fallback

/-- The local variables of the `run_prediction` minute loop. -/
structure SimState where
  soc : ℚ
  soc_min : ℚ
  minute_left : ℕ
  charge_has_run : Bool
  charge_has_started : Bool
  discharge_has_run : Bool
  export_kwh : ℚ
  import_kwh : ℚ
  import_kwh_house : ℚ
  import_kwh_battery : ℚ
  load_kwh : ℚ
  pv_kwh : ℚ
  metric : ℚ
  record : Bool
  final_soc : Option ℚ
deriving DecidableEq, Repr

/-- Initial values of the `run_prediction` loop variables. `final_soc`
starts unbound (Python raises UnboundLocalError if it is never set). -/
def initSimState (p : Params) : SimState :=
  { soc := p.soc_kw, soc_min := p.soc_max, minute_left := p.forecast_minutes,
    charge_has_run := false, charge_has_started := false, discharge_has_run := false,
    export_kwh := 0, import_kwh := 0, import_kwh_house := 0, import_kwh_battery := 0,
    load_kwh := 0, pv_kwh := 0, metric := p.cost_today_sofar, record := true,
    final_soc := none }

/-- The quantities a single branch of the minute loop can change. -/
structure Mid where
  soc : ℚ
  metric : ℚ
  import_kwh : ℚ
  import_kwh_house : ℚ
  import_kwh_battery : ℚ
  export_kwh : ℚ
  discharge_has_run : Bool
deriving DecidableEq, Repr

/-- The forced-charge branch of the minute loop: charge toward the
window limit at the charge rate; when recording, grid import (with the
round-trip loss applied and the house load added) and its cost are
accumulated. Recording divides by `battery_loss`, a ZeroDivisionError
when it is 0. -/
def chargeBranchCalc (p : Params) (record : Bool) (minute_absolute step : ℕ) (limit : ℚ)
    (pv_now load_yesterday : ℚ) (m : Mid) : Option Mid :=
  let old_soc := m.soc
  let soc := min (m.soc + p.charge_rate * (step : ℚ)) limit
  if record then
    match pyDiv (max 0 (soc - old_soc - pv_now)) p.battery_loss with
    | none => none
    | some e0 =>
        let energy := e0 + load_yesterday
        some { m with
          soc := soc,
          import_kwh := m.import_kwh + energy,
          import_kwh_battery := m.import_kwh_battery + energy,
          metric := m.metric + rateOr p.rate_import minute_absolute p.metric_battery * energy }
  else some { m with soc := soc }

/-- The forced-discharge branch of the minute loop. -/
def dischargeBranchCalc (p : Params) (record : Bool) (minute_absolute step : ℕ)
    (pv_now load_yesterday : ℚ) (m : Mid) : Mid :=
  let draw0 := p.discharge_rate * (step : ℚ)
  let battery_draw := if m.soc - p.reserve < draw0 then m.soc - p.reserve else draw0
  let soc := m.soc - battery_draw
  let diff := load_yesterday - pv_now - battery_draw
  if 0 ≤ diff then
    if record then
      { m with
        soc := soc, discharge_has_run := true,
        import_kwh := m.import_kwh + diff,
        import_kwh_house := m.import_kwh_house + diff,
        metric := m.metric + rateOr p.rate_import minute_absolute p.metric_house * diff }
    else { m with soc := soc, discharge_has_run := true }
  else
    let energy := -diff
    if record then
      { m with
        soc := soc, discharge_has_run := true,
        export_kwh := m.export_kwh + energy,
        metric := m.metric - rateOr p.rate_export minute_absolute p.metric_export * energy }
    else { m with soc := soc, discharge_has_run := true }

/-- The idle (self-consumption) branch of the minute loop.
`in_charge_slot` is the test `charge_enable and charge_window_n >= 0`
that classifies over-cap imports as battery imports. -/
def idleBranchCalc (p : Params) (record : Bool) (in_charge_slot : Bool)
    (minute_absolute step : ℕ) (pv_now load_yesterday : ℚ) (m : Mid) : Mid :=
  let diff0 := load_yesterday - pv_now
  let diff := if diff0 < 0 then diff0 * p.battery_loss else diff0
  let m1 :=
    if diff < -(p.charge_rate * (step : ℚ)) then
      let energy := -(diff + p.charge_rate * (step : ℚ))
      if record then
        { m with
          soc := m.soc - p.charge_rate * (step : ℚ),
          export_kwh := m.export_kwh + energy,
          metric := m.metric - rateOr p.rate_export minute_absolute p.metric_export * energy }
      else { m with soc := m.soc - p.charge_rate * (step : ℚ) }
    else m
  if diff > p.discharge_rate * (step : ℚ) then
    let energy := diff - p.discharge_rate * (step : ℚ)
    if record then
      { m1 with
        soc := m1.soc - p.discharge_rate * (step : ℚ),
        import_kwh := m1.import_kwh + energy,
        import_kwh_battery :=
          if in_charge_slot then m1.import_kwh_battery + energy else m1.import_kwh_battery,
        import_kwh_house :=
          if in_charge_slot then m1.import_kwh_house else m1.import_kwh_house + energy,
        metric := m1.metric +
          (match p.rate_import minute_absolute with
           | some r => r
           | none => if in_charge_slot then p.metric_battery else p.metric_house) * energy }
    else { m1 with soc := m1.soc - p.discharge_rate * (step : ℚ) }
  else { m1 with soc := m1.soc - diff }

/-- End-of-step clamp at the reserve: an SOC below the reserve is pulled
up to it and the deficit is accounted as house import when recording. -/
def reserveClampCalc (p : Params) (record : Bool) (minute_absolute : ℕ) (m : Mid) : Mid :=
  if m.soc < p.reserve then
    let energy := p.reserve - m.soc
    if record then
      { m with
        soc := p.reserve,
        import_kwh := m.import_kwh + energy,
        import_kwh_house := m.import_kwh_house + energy,
        metric := m.metric + rateOr p.rate_import minute_absolute p.metric_house * energy }
    else { m with soc := p.reserve }
  else m

/-- End-of-step clamp at capacity: an SOC above `soc_max` is pulled down
to it and the excess is accounted as export when recording. -/
def socMaxClampCalc (p : Params) (record : Bool) (minute_absolute : ℕ) (m : Mid) : Mid :=
  if m.soc > p.soc_max then
    let energy := m.soc - p.soc_max
    if record then
      { m with
        soc := p.soc_max,
        export_kwh := m.export_kwh + energy,
        metric := m.metric - rateOr p.rate_export minute_absolute p.metric_export * energy }
    else { m with soc := p.soc_max }
  else m

/-- The elif chain after the forced-charge test: forced discharge if the
minute is in an enabled discharge window and the battery is above the
reserve, otherwise the idle branch. Out-of-range indexing of
`discharge_enable` is an IndexError. -/
def elifBranch (p : Params) (discharge_enable : List Bool) (discharge_window_n : Option ℕ)
    (in_charge_slot record : Bool) (minute_absolute step : ℕ) (pv_now load_yesterday : ℚ)
    (m : Mid) : Option Mid :=
  match discharge_window_n with
  | some n =>
      if m.soc > p.reserve then
        match discharge_enable[n]? with
        | none => none
        | some en =>
            if en then
              some (dischargeBranchCalc p record minute_absolute step pv_now load_yesterday m)
            else
              some (idleBranchCalc p record in_charge_slot minute_absolute step pv_now
                load_yesterday m)
      else
        some (idleBranchCalc p record in_charge_slot minute_absolute step pv_now
          load_yesterday m)
  | none =>
      some (idleBranchCalc p record in_charge_slot minute_absolute step pv_now
        load_yesterday m)

/-- The car-charging-hold adjustment of the load of one step: with car
energy data the same-interval car energy is subtracted (floored at
zero), otherwise a step load above the threshold is zeroed. -/
def loadCarCalc (p : Params) (minute_yesterday : ℤ) (step : ℕ) (load0 : ℚ) : Option ℚ :=
  if p.car_charging_hold then
    match p.car_charging_energy with
    | some car =>
        match loadStep car minute_yesterday step with
        | none => none
        | some car_energy => some (max 0 (load0 - car_energy))
    | none => some (if p.car_charging_threshold * (step : ℚ) ≤ load0 then 0 else load0)
  else some load0

/-- The Octopus-slot adjustment of the load of one step: inside a slot
the expected car load of the step is added back. -/
def loadOctCalc (p : Params) (minute_absolute step : ℕ) (load1 : ℚ) : Option ℚ :=
  if p.car_charging_rate ≠ 0 then
    match in_octopus_slot p minute_absolute with
    | none => none
    | some car_load =>
        some (if 0 < car_load then load1 + car_load * (step : ℚ) / 60 else load1)
  else some load1

/-- The branch selection of the minute loop: forced charge when inside a
charge window below its limit, else the elif chain. Out-of-range
indexing of `charge_limit` is an IndexError. -/
def branchCalc (p : Params) (charge_limit : List ℚ) (discharge_enable : List Bool)
    (charge_window_n discharge_window_n : Option ℕ) (record : Bool)
    (minute_absolute step : ℕ) (pv_now load_yesterday : ℚ) (m : Mid) : Option Mid :=
  let in_charge_slot := p.charge_enable && charge_window_n.isSome
  match charge_window_n with
  | some n =>
      if p.charge_enable then
        match charge_limit[n]? with
        | none => none
        | some limit =>
            if m.soc < limit then
              chargeBranchCalc p record minute_absolute step limit pv_now load_yesterday m
            else
              elifBranch p discharge_enable discharge_window_n in_charge_slot record
                minute_absolute step pv_now load_yesterday m
      else
        elifBranch p discharge_enable discharge_window_n in_charge_slot record
          minute_absolute step pv_now load_yesterday m
  | none =>
      elifBranch p discharge_enable discharge_window_n in_charge_slot record
        minute_absolute step pv_now load_yesterday m

/-- End-of-step bookkeeping: clamps the SOC, updates the charge flags
and, when recording, the load total, `minute_left`, `soc_min` and
`final_soc`. -/
def assembleState (p : Params) (charge_window_n : Option ℕ) (record : Bool)
    (minute minute_absolute : ℕ) (pv_now load_yesterday : ℚ) (st : SimState) (mid1 : Mid) :
    SimState :=
  let mid2 := reserveClampCalc p record minute_absolute mid1
  let mid3 := socMaxClampCalc p record minute_absolute mid2
  let charge_has_started :=
    st.charge_has_started || (p.charge_enable && charge_window_n.isSome)
  let charge_has_run :=
    st.charge_has_run || (p.charge_enable && charge_has_started && charge_window_n.isNone)
  let minute_left :=
    if record && decide (mid3.soc ≤ p.reserve) then max minute st.minute_left
    else st.minute_left
  let soc_min :=
    if record && (mid3.discharge_has_run || charge_has_run || !p.charge_enable)
    then min st.soc_min mid3.soc
    else st.soc_min
  { soc := mid3.soc, soc_min := soc_min, minute_left := minute_left,
    charge_has_run := charge_has_run,
    charge_has_started := charge_has_started,
    discharge_has_run := mid3.discharge_has_run,
    export_kwh := mid3.export_kwh, import_kwh := mid3.import_kwh,
    import_kwh_house := mid3.import_kwh_house,
    import_kwh_battery := mid3.import_kwh_battery,
    load_kwh := if record then st.load_kwh + load_yesterday else st.load_kwh,
    pv_kwh := st.pv_kwh + pv_now,
    metric := mid3.metric, record := record,
    final_soc := if record then some mid3.soc else st.final_soc }

/-- One iteration of the `run_prediction` minute loop at the given
`minute`, from the source lines that compute the load and PV for the
step, select the battery branch, clamp the SOC and update the recorded
telemetry. -/
def stepSim (p : Params) (charge_limit : List ℚ) (charge_window discharge_window : List Window)
    (discharge_enable : List Bool) (load_minutes pv_forecast_minute : ℕ → Option ℚ)
    (step : ℕ) (end_record : ℤ) (minute : ℕ) (st : SimState) : Option SimState :=
  let six_days : ℤ := 24 * 60 * ((p.days_previous : ℤ) - 1)
  let minute_yesterday : ℤ := 24 * 60 - (minute : ℤ) + six_days
  let minute_absolute : ℕ := minute + p.minutes_now
  let charge_window_n := in_charge_window charge_window minute_absolute
  let discharge_window_n := in_charge_window discharge_window minute_absolute
  let record := st.record && decide ((minute : ℤ) < end_record)
  let pv_now := pvStep pv_forecast_minute minute_absolute step
  match loadStep load_minutes minute_yesterday step with
  | none => none
  | some load0 =>
      match loadCarCalc p minute_yesterday step load0 with
      | none => none
      | some load1 =>
          match loadOctCalc p minute_absolute step load1 with
          | none => none
          | some load_yesterday =>
              let mid0 : Mid :=
                { soc := st.soc, metric := st.metric, import_kwh := st.import_kwh,
                  import_kwh_house := st.import_kwh_house,
                  import_kwh_battery := st.import_kwh_battery,
                  export_kwh := st.export_kwh, discharge_has_run := st.discharge_has_run }
              match branchCalc p charge_limit discharge_enable charge_window_n
                  discharge_window_n record minute_absolute step pv_now load_yesterday
                  mid0 with
              | none => none
              | some mid1 =>
                  some (assembleState p charge_window_n record minute minute_absolute
                    pv_now load_yesterday st mid1)

/-- Runs the first `n` iterations of the minute loop; iteration `k`
simulates minute `k * step`. -/
def runSim (p : Params) (charge_limit : List ℚ)
    (charge_window discharge_window : List Window) (discharge_enable : List Bool)
    (load_minutes pv_forecast_minute : ℕ → Option ℚ) (step : ℕ) (end_record : ℤ) :
    ℕ → Option SimState
  | 0 => some (initSimState p)
  | n + 1 =>
      match runSim p charge_limit charge_window discharge_window discharge_enable
          load_minutes pv_forecast_minute step end_record n with
      | none => none
      | some st =>
          stepSim p charge_limit charge_window discharge_window discharge_enable
            load_minutes pv_forecast_minute step end_record (n * step) st

/-- The tuple returned by `run_prediction`. -/
structure PredResult where
  metric : ℚ
  charge_limit_percent : List ℤ
  import_kwh_battery : ℚ
  import_kwh_house : ℚ
  export_kwh : ℚ
  soc_min : ℚ
  final_soc : ℚ
deriving DecidableEq, Repr

/-- The percent list built on return,
`min(int(limit / soc_max * 100 + 0.5), 100)` per slot; with a nonempty
plan and `soc_max = 0` the division raises (`none`). -/
def charge_limit_percent_calc (soc_max : ℚ) (charge_limit : List ℚ) : Option (List ℤ) :=
  match charge_limit with
  | [] => some []
  | _ =>
      if soc_max = 0 then none
      else some (charge_limit.map (fun c => min (intTrunc (c / soc_max * 100 + 1 / 2)) 100))

/-- From the source `run_prediction`: simulates
`ceil(forecast_minutes / step)` minute steps and returns the metric,
percent limits, energy totals, minimum SOC and final SOC. `none` models
any exception: a KeyError from the load curves, an IndexError from the
plan lists, a ZeroDivisionError, the UnboundLocalError on `final_soc`
when no step recorded, or a zero `step` (on which the Python loop would
not terminate). -/
def run_prediction (p : Params) (charge_limit : List ℚ)
    (charge_window discharge_window : List Window) (discharge_enable : List Bool)
    (load_minutes pv_forecast_minute : ℕ → Option ℚ) (step : ℕ) : Option PredResult :=
  if step = 0 then none
  else
    let end_record := record_length p charge_window
    let n := (p.forecast_minutes + step - 1) / step
    match runSim p charge_limit charge_window discharge_window discharge_enable
        load_minutes pv_forecast_minute step end_record n with
    | none => none
    | some st =>
        match st.final_soc, charge_limit_percent_calc p.soc_max charge_limit with
        | some fs, some pct =>
            some {
              metric := st.metric, charge_limit_percent := pct,
              import_kwh_battery := st.import_kwh_battery,
              import_kwh_house := st.import_kwh_house,
              export_kwh := st.export_kwh, soc_min := st.soc_min, final_soc := fs }
        | _, _ => none

/-- Modelled from the claim wording for C4: the recording horizon as the
claim states it, `min(forecast_minutes, start of the first window whose
START is beyond the forecast horizon) - minutes_now`. -/
def claimedEndRecord (p : Params) (charge_window : List Window) : ℤ :=
  ((match charge_window.find? (fun w => decide (p.forecast_minutes < w.start)) with
    | some w => min p.forecast_minutes w.start
    | none => p.forecast_minutes : ℕ) : ℤ) - (p.minutes_now : ℤ)

/-- Index of the first window whose end lies beyond the horizon (the
list length when there is none); used to characterize `record_length`
on window lists sorted by end. -/
def firstEndBeyondIdx (fm : ℕ) : List Window → ℕ
  | [] => 0
  | w :: rest => if fm < w.end_ then 0 else firstEndBeyondIdx fm rest + 1

/-- The cost and energy accumulators of two branch states agree. -/
def sameAcc (m m' : Mid) : Prop :=
  m'.metric = m.metric ∧ m'.import_kwh = m.import_kwh ∧
    m'.import_kwh_house = m.import_kwh_house ∧
    m'.import_kwh_battery = m.import_kwh_battery ∧ m'.export_kwh = m.export_kwh

/-- The hard cap on the number of scanned windows, from `MAX_CHARGE_LIMITS`
at the top of the source. -/
def MAX_CHARGE_LIMITS : ℕ := 16

/-- The qualifying test of the rate scanner (source line 991): at or below
the threshold for import scans, at or above it for `find_high` (export)
scans. -/
def rateQualifies (find_high : Bool) (threshold_rate rate : ℚ) : Bool :=
  (!find_high && decide (rate ≤ threshold_rate))
    || (find_high && decide (threshold_rate ≤ rate))

/-- The accumulation phase of `find_charge_window` (source lines 989-1019
once `rate_low_start` is set): walk minutes while the rate stays present,
qualifying, equal at 2 dp to the first rate and, for `find_high`, within
30 minutes of the start; on any break `rate_low_end` becomes the current
minute, and the fuel running out is the loop reaching `stop_at` with
`rate_low_end` still at its initial value `stop_at`, which equals the
current minute there. Returns
`(rate_low_start, rate_low_end, dp2 (rate_low_average / rate_low_count))`. -/
def fcwAccum (rates : ℕ → Option ℚ) (threshold_rate : ℚ) (find_high : Bool)
    (start : ℕ) (first_rate : ℚ) : ℕ → ℕ → ℚ → ℕ → ℕ × ℕ × ℚ
  | minute, 0, sum, count => (start, minute, dp2 (sum / (count : ℚ)))
  | minute, fuel + 1, sum, count =>
      match rates minute with
      | none => (start, minute, dp2 (sum / (count : ℚ)))
      | some rate =>
          if rateQualifies find_high threshold_rate rate then
            if dp2 rate ≠ dp2 first_rate then (start, minute, dp2 (sum / (count : ℚ)))
            else if find_high && decide (30 ≤ minute - start) then
              (start, minute, dp2 (sum / (count : ℚ)))
            else
              fcwAccum rates threshold_rate find_high start first_rate (minute + 1) fuel
                (sum + rate) (count + 1)
          else (start, minute, dp2 (sum / (count : ℚ)))

/-- The seek phase of `find_charge_window` (source lines 984-1019 while
`rate_low_start` is -1): stop without a window at the forecast horizon, on
a missing rate, or at `stop_at` (fuel 0); enter the accumulation phase at
the first present qualifying rate. -/
def fcwSeek (p : Params) (rates : ℕ → Option ℚ) (threshold_rate : ℚ) (find_high : Bool) :
    ℕ → ℕ → Option (ℕ × ℕ × ℚ)
  | _, 0 => none
  | minute, fuel + 1 =>
      if p.forecast_minutes ≤ minute then none
      else
        match rates minute with
        | none => none
        | some rate =>
            if rateQualifies find_high threshold_rate rate then
              some (fcwAccum rates threshold_rate find_high minute rate (minute + 1) fuel
                rate 1)
            else fcwSeek p rates threshold_rate find_high (minute + 1) fuel

/-- `find_charge_window` (source lines 972-1023): `none` models the
`(-1, -1, 0)` no-window return; the fuel is the distance from the scan
start to `stop_at = forecast_minutes + 12*60`. -/
def find_charge_window (p : Params) (rates : ℕ → Option ℚ) (minute : ℕ)
    (threshold_rate : ℚ) (find_high : Bool) : Option (ℕ × ℕ × ℚ) :=
  fcwSeek p rates threshold_rate find_high minute (p.forecast_minutes + 12 * 60 - minute)

/-- The while loop of `rate_scan_window` (source lines 1177-1189): until
`MAX_CHARGE_LIMITS` windows are found, scan from `minute`, append the
window when it ends at or after now and is at least the minimum length,
and continue from its end; the fuel bounds the iterations (each scan ends
strictly beyond its start, so `stop_at + 2` iterations never run out). -/
def rswGo (p : Params) (rates : ℕ → Option ℚ) (rate_low_min_window : ℕ)
    (threshold_rate : ℚ) (find_high : Bool) : ℕ → ℕ → List Window → List Window
  | _, 0, acc => acc
  | minute, fuel + 1, acc =>
      if acc.length < MAX_CHARGE_LIMITS then
        match find_charge_window p rates minute threshold_rate find_high with
        | none => acc
        | some (s, e, avg) =>
            rswGo p rates rate_low_min_window threshold_rate find_high e fuel
              (if p.minutes_now ≤ e ∧ rate_low_min_window ≤ e - s then
                acc ++ [⟨s, e, avg⟩] else acc)
      else acc

/-- `rate_scan_window` (source lines 1170-1190). -/
def rate_scan_window (p : Params) (rates : ℕ → Option ℚ) (rate_low_min_window : ℕ)
    (threshold_rate : ℚ) (find_high : Bool) : List Window :=
  rswGo p rates rate_low_min_window threshold_rate find_high 0
    (p.forecast_minutes + 12 * 60 + 2) []

/-- A small rate curve for the scanner witnesses: rate 1 on the first
three minutes, nothing after. -/
def scanRates : ℕ → Option ℚ := fun m => if m < 3 then some 1 else none

/-- A trivial configuration used by witnesses: one 5-minute step, an
idle battery with capacity 1 and reserve 0, no rates, no car hold. -/
def pTriv : Params :=
  { minutes_now := 0, forecast_minutes := 5, days_previous := 1, soc_kw := 0, soc_max := 1,
    reserve := 0, charge_rate := 0, discharge_rate := 0, battery_loss := 1,
    charge_enable := false, metric_house := 0, metric_battery := 0, metric_export := 0,
    metric_min_improvement := 0, cost_today_sofar := 0, rate_import := fun _ => none,
    rate_export := fun _ => none, car_charging_hold := false, car_charging_energy := none,
    car_charging_threshold := 0, car_charging_rate := 0, octopus_slots := [], rate_min := 0,
    best_soc_min := 0, best_soc_keep := 0, best_soc_margin := 0, best_soc_step := 0,
    pv_metric10_weight := 0 }

/-- One candidate evaluation of `optimise_charge_limit` (source lines
1459-1489, given `try_soc`): store `try_soc` into the plan slot
(IndexError when `window_n` is out of range), simulate with mid and 10%
PV, subtract the future-value credit `final_soc * rate_min`, and weight
in the 10% outcome (rounding to 2 dp only in that branch). Returns
`(try_soc, metric, cost, soc_min)`. -/
def candEval (p : Params) (window_n : ℕ) (try_charge_limit : List ℚ)
    (charge_window discharge_window : List Window) (discharge_enable : List Bool)
    (load_minutes pv_forecast_minute pv_forecast_minute10 : ℕ → Option ℚ)
    (try_soc : ℚ) : Option (ℚ × ℚ × ℚ × ℚ) :=
  if window_n < try_charge_limit.length then
    match run_prediction p (try_charge_limit.set window_n try_soc) charge_window
        discharge_window discharge_enable load_minutes pv_forecast_minute 5,
      run_prediction p (try_charge_limit.set window_n try_soc) charge_window
        discharge_window discharge_enable load_minutes pv_forecast_minute10 5 with
    | some r, some r10 =>
        some (try_soc,
          if r10.metric > r.metric then
            dp2 (r.metric - r.final_soc * p.rate_min
              + (r10.metric - r.metric) * p.pv_metric10_weight)
          else r.metric - r.final_soc * p.rate_min,
          r.metric, r.soc_min)
    | _, _ => none
  else none

/-- The selection step of `optimise_charge_limit` (source line 1498):
take the candidate `(try_soc, metric, cost, soc_min)` over the running
best when its metric improves on the best by the threshold AND either no
candidate has been taken yet (`best_metric` still the 9999999 sentinel)
or its `soc_min` stays at or above `best_soc_keep`. -/
def selStep (keep thr : ℚ) (best cand : ℚ × ℚ × ℚ × ℚ) : ℚ × ℚ × ℚ × ℚ :=
  if cand.2.1 + thr ≤ best.2.1 ∧ (best.2.1 = 9999999 ∨ keep ≤ cand.2.2.2) then cand
  else best

/-- The candidate generation of the `optimise_charge_limit` loop (source
lines 1454-1511): from `loop_soc = soc_max` downwards in steps of
`max(best_soc_step, 0.1)`, clamp to `dp2(min(max(max(best_soc_min,
loop_soc), reserve), soc_max))`, stop when the loop SOC goes negative or
the clamped value no longer decreases, and evaluate each tried value;
`none` models an exception inside an evaluation. The fuel bounds the
iterations: the loop SOC drops by at least 1/10 each time, so
`(soc_max * 10).floor.toNat + 2` iterations never run out. -/
def triedCandidatesGo (p : Params) (window_n : ℕ) (try_charge_limit : List ℚ)
    (charge_window discharge_window : List Window) (discharge_enable : List Bool)
    (load_minutes pv_forecast_minute pv_forecast_minute10 : ℕ → Option ℚ) :
    ℕ → ℚ → ℚ → Option (List (ℚ × ℚ × ℚ × ℚ))
  | 0, _, _ => some []
  | fuel + 1, loop_soc, prev_soc =>
      if loop_soc < 0 then some []
      else
        let try_soc := dp2 (min (max (max p.best_soc_min loop_soc) p.reserve) p.soc_max)
        if prev_soc ≤ try_soc then some []
        else
          match candEval p window_n try_charge_limit charge_window discharge_window
              discharge_enable load_minutes pv_forecast_minute pv_forecast_minute10
              try_soc with
          | none => none
          | some cand =>
              match triedCandidatesGo p window_n try_charge_limit charge_window
                  discharge_window discharge_enable load_minutes pv_forecast_minute
                  pv_forecast_minute10 fuel
                  (loop_soc - max p.best_soc_step (1 / 10)) try_soc with
              | none => none
              | some rest => some (cand :: rest)

/-- The tried candidates of `optimise_charge_limit`, in loop order. -/
def triedCandidates (p : Params) (window_n : ℕ) (try_charge_limit : List ℚ)
    (charge_window discharge_window : List Window) (discharge_enable : List Bool)
    (load_minutes pv_forecast_minute pv_forecast_minute10 : ℕ → Option ℚ) :
    Option (List (ℚ × ℚ × ℚ × ℚ)) :=
  triedCandidatesGo p window_n try_charge_limit charge_window discharge_window
    discharge_enable load_minutes pv_forecast_minute pv_forecast_minute10
    ((⌊p.soc_max * 10⌋).toNat + 2) p.soc_max (p.soc_max + 1)

/-- `optimise_charge_limit` (source lines 1442-1516): fold the selection
over the tried candidates from `(soc_max, 9999999, 0, soc_max)` and add
the margin (clamped at `soc_max`) to the best SOC. The improvement
threshold `metric_min_improvement / record_charge_windows` is evaluated
with the first candidate (ZeroDivisionError when the loop runs and
`record_charge_windows` is 0); with no candidate the loop body never
runs and the initial values are returned. -/
def optimise_charge_limit (p : Params) (window_n record_charge_windows : ℕ)
    (try_charge_limit : List ℚ) (charge_window discharge_window : List Window)
    (discharge_enable : List Bool)
    (load_minutes pv_forecast_minute pv_forecast_minute10 : ℕ → Option ℚ) :
    Option (ℚ × ℚ × ℚ × ℚ) :=
  match triedCandidates p window_n try_charge_limit charge_window discharge_window
      discharge_enable load_minutes pv_forecast_minute pv_forecast_minute10 with
  | none => none
  | some [] => some (min (p.soc_max + p.best_soc_margin) p.soc_max, 9999999, 0, p.soc_max)
  | some (c :: rest) =>
      match pyDiv p.metric_min_improvement ((record_charge_windows : ℕ) : ℚ) with
      | none => none
      | some thr =>
          let f := (c :: rest).foldl (selStep p.best_soc_keep thr)
            (p.soc_max, (9999999 : ℚ), 0, p.soc_max)
          some (min (f.1 + p.best_soc_margin) p.soc_max, f.2.1, f.2.2.1, f.2.2.2)

/-- Modelled from the claim wording for C3: the strict selection in which
every taken candidate must satisfy BOTH the metric improvement and
`soc_min ≥ best_soc_keep`, with no sentinel bypass on the first take. -/
def claimedSelStep (keep thr : ℚ) (best cand : ℚ × ℚ × ℚ × ℚ) : ℚ × ℚ × ℚ × ℚ :=
  if cand.2.1 + thr ≤ best.2.1 ∧ keep ≤ cand.2.2.2 then cand else best

/-- Modelled from the claim wording for C3: the best SOC the claim
describes, the lowest tried candidate accepted under the strict rule
(the candidates are tried in decreasing order, so the fold ends on it). -/
def claimedBestSoc (p : Params) (record_charge_windows : ℕ)
    (cands : List (ℚ × ℚ × ℚ × ℚ)) : Option ℚ :=
  (pyDiv p.metric_min_improvement ((record_charge_windows : ℕ) : ℚ)).map (fun thr =>
    (cands.foldl (claimedSelStep p.best_soc_keep thr)
      (p.soc_max, (9999999 : ℚ), 0, p.soc_max)).1)

/-- The configuration of the C3 counterexample: one 15-minute horizon
with a full-width charge window, a mid-horizon enabled discharge window,
an import rate of 1, a large future-value rate and `best_soc_keep = 3/4`. -/
def P3 : Params :=
  { pTriv with
    forecast_minutes := 15, charge_enable := true, charge_rate := 1,
    discharge_rate := 3 / 50, rate_import := fun _ => some 1,
    rate_export := fun _ => some 0, rate_min := 20, best_soc_keep := 3 / 4,
    best_soc_step := 1 / 2 }

/-- The candidates the C3 counterexample tries, in loop order. -/
def candsP3 : List (ℚ × ℚ × ℚ × ℚ) :=
  [(1, -13, 1, 7 / 10), (1 / 2, -7 / 2, 1 / 2, 1 / 5), (0, 0, 0, 1)]

/-- The trivial configuration with a 150-minute horizon, for the C4
counterexample. -/
def pC4 : Params :=
  { pTriv with forecast_minutes := 150 }

/-- The state after one step of the trivial configuration. -/
def stTriv : SimState :=
  { soc := 0, soc_min := 0, minute_left := 5, charge_has_run := false,
    charge_has_started := false, discharge_has_run := false, export_kwh := 0,
    import_kwh := 0, import_kwh_house := 0, import_kwh_battery := 0, load_kwh := 0,
    pv_kwh := 0, metric := 0, record := true, final_soc := some 0 }

end Predbat

namespace Predbat

theorem pyDiv_some {a b : ℚ} (hb : b ≠ 0) : pyDiv a b = some (a / b) := by
  simp [pyDiv, hb]

theorem dp2_le (v : ℚ) : v ≤ dp2 v := by
  rw [dp2, le_div_iff₀ (by norm_num : (0:ℚ) < 100)]
  exact Int.le_ceil _

theorem dp2_of_mul_eq_int (v : ℚ) (n : ℤ) (h : v * 100 = (n : ℚ)) : dp2 v = v := by
  rw [dp2, h, Int.ceil_intCast, ← h]
  field_simp

theorem dp2_eval (v : ℚ) (n : ℤ) (h1 : (n : ℚ) - 1 < v * 100) (h2 : v * 100 ≤ (n : ℚ)) :
    dp2 v = (n : ℚ) / 100 := by
  have : ⌈v * 100⌉ = n := by
    rw [Int.ceil_eq_iff]
    · exact ⟨h1, h2⟩
  rw [dp2, this]

theorem icwGo_shift (m k : ℕ) (l : List Window) :
    icwGo m k l = (icwGo m 0 l).map (· + k) := by
  induction l generalizing k with
  | nil => simp [icwGo]
  | cons w rest ih =>
      by_cases hw : winContains w m
      · simp [icwGo, hw]
      · rw [icwGo, icwGo, if_neg hw, if_neg hw, ih (k + 1), ih 1, Option.map_map]
        congr 1
        funext a
        simp
        omega

theorem in_charge_window_cons (w : Window) (rest : List Window) (m : ℕ) :
    in_charge_window (w :: rest) m =
      if winContains w m then some 0 else (in_charge_window rest m).map (· + 1) := by
  rw [in_charge_window, in_charge_window, icwGo]
  by_cases hw : winContains w m
  · simp [hw]
  · rw [if_neg hw, if_neg hw, icwGo_shift]

/-- C10: `in_charge_window` treats each window as a half-open interval
and returns the first match in list order: it returns `some i` exactly
when window `i` contains the minute and no earlier window does, and
`none` (modelling the -1 of the source) exactly when no window contains
the minute; containment is `start <= minute < end`, so a minute equal to
the end of a window is not inside it. -/
theorem in_charge_window_first_containing (cw : List Window) (m : ℕ) :
    (∀ i, in_charge_window cw m = some i ↔
        (∃ w, cw[i]? = some w ∧ winContains w m) ∧
          ∀ j, j < i → ∀ w, cw[j]? = some w → ¬winContains w m) ∧
      (in_charge_window cw m = none ↔ ∀ (j : ℕ) w, cw[j]? = some w → ¬winContains w m) := by
  induction cw with
  | nil =>
      constructor
      · intro i
        simp [in_charge_window, icwGo]
      · simp [in_charge_window, icwGo]
  | cons w rest ih =>
      rw [in_charge_window_cons]
      by_cases hw : winContains w m
      · rw [if_pos hw]
        constructor
        · intro i
          constructor
          · intro hsome
            obtain rfl : i = 0 := by
              cases hsome
              rfl
            exact ⟨⟨w, by simp, hw⟩, by omega⟩
          · rintro ⟨⟨w', hw', hcont⟩, hleast⟩
            rcases i with _ | i
            · rfl
            · exact absurd hw (hleast 0 (by omega) w (by simp))
        · constructor
          · intro h
            cases h
          · intro h
            exact absurd hw (h 0 w (by simp))
      · rw [if_neg hw]
        constructor
        · intro i
          constructor
          · intro hsome
            rcases hmap : in_charge_window rest m with _ | i'
            · rw [hmap] at hsome
              cases hsome
            · rw [hmap] at hsome
              simp only [Option.map_some'] at hsome
              obtain rfl := Option.some.inj hsome
              obtain ⟨⟨w', hw', hcont⟩, hleast⟩ := ((ih.1 i').mp hmap)
              refine ⟨⟨w', by simpa using hw', hcont⟩, ?_⟩
              intro j hj w'' hw''
              rcases j with _ | j
              · simp at hw''
                subst hw''
                exact hw
              · simp only [List.getElem?_cons_succ] at hw''
                exact hleast j (by omega) w'' hw''
          · rintro ⟨⟨w', hw', hcont⟩, hleast⟩
            rcases i with _ | i
            · simp at hw'
              subst hw'
              exact absurd hcont hw
            · simp only [List.getElem?_cons_succ] at hw'
              have : in_charge_window rest m = some i := by
                refine (ih.1 i).mpr ⟨⟨w', hw', hcont⟩, ?_⟩
                intro j hj w'' hw''
                exact hleast (j + 1) (by omega) w'' (by simpa using hw'')
              rw [this]
              rfl
        · constructor
          · intro hnone
            have : in_charge_window rest m = none := by
              rcases hmap : in_charge_window rest m with _ | i'
              · rfl
              · rw [hmap] at hnone
                cases hnone
            intro j w'' hw''
            rcases j with _ | j
            · simp at hw''
              subst hw''
              exact hw
            · exact (ih.2.mp this) j w'' (by simpa using hw'')
          · intro h
            have : in_charge_window rest m = none :=
              ih.2.mpr (fun j w'' hw'' => h (j + 1) w'' (by simpa using hw''))
            rw [this]
            rfl

/-- Witness for C10: with two overlapping windows, minute 10 is at the
end of the first window (hence outside it) and inside the second. -/
theorem in_charge_window_first_containing_witness :
    in_charge_window [⟨5, 10, 0⟩, ⟨0, 20, 0⟩] 10 = some 1 := by
  refine ((in_charge_window_first_containing [⟨5, 10, 0⟩, ⟨0, 20, 0⟩] 10).1 1).mpr
    ⟨⟨⟨0, 20, 0⟩, rfl, by constructor <;> norm_num⟩, ?_⟩
  intro j hj w hwj
  interval_cases j
  simp only [List.getElem?_cons_zero, Option.some.injEq] at hwj
  subst hwj
  simp [winContains]

theorem cleanGo_length (l : List ℚ) (last inc : ℚ) :
    (cleanGo last inc l).length = l.length := by
  induction l generalizing last inc with
  | nil => rfl
  | cons a rest ih => simp [cleanGo, ih]

theorem cleanGo_getElem? (l : List ℚ) :
    ∀ (last inc : ℚ) (k : ℕ), k < l.length →
      (cleanGo last inc l)[k]? =
        some (inc + ∑ j ∈ Finset.range (k + 1), chainDelta (last :: l) j) := by
  induction l with
  | nil => intro last inc k hk; simp at hk
  | cons a rest ih =>
      intro last inc k hk
      have hinc : (if a ≥ last then inc + (a - last) else inc) =
          inc + chainDelta (last :: a :: rest) 0 := by
        rw [chainDelta]
        simp only [List.getD_cons_zero, List.getD_cons_succ, ge_iff_le]
        split_ifs <;> ring
      have hshift : ∀ j, chainDelta (a :: rest) j = chainDelta (last :: a :: rest) (j + 1) := by
        intro j
        rw [chainDelta, chainDelta]
        simp [List.getD_cons_succ]
      rcases k with _ | k
      · simp only [cleanGo, List.getElem?_cons_zero]
        rw [hinc]
        norm_num
      · simp only [cleanGo, List.getElem?_cons_succ]
        rw [ih a _ k (by simpa using hk), hinc]
        congr 1
        rw [Finset.sum_range_succ' (chainDelta (last :: a :: rest)) (k + 1)]
        simp only [hshift]
        ring

theorem clean_incrementing_reverse_getElem? (data : List ℚ) (hne : data ≠ []) (i : ℕ)
    (hi : i < data.length) :
    (clean_incrementing_reverse data)[i]? =
      some (∑ j ∈ Finset.range (data.length - 1 - i + 1),
        chainDelta (data.getLast hne :: data.reverse) j) := by
  rw [clean_incrementing_reverse, List.getLast?_eq_getLast data hne]
  have hlen : (cleanGo (data.getLast hne) 0 data.reverse).length = data.length := by
    rw [cleanGo_length, List.length_reverse]
  rw [List.getElem?_reverse (by omega), hlen]
  rw [cleanGo_getElem? data.reverse _ 0 (data.length - 1 - i) (by simp; omega)]
  rw [zero_add]

theorem reverse_getD (data : List ℚ) (j : ℕ) (hj : j < data.length) :
    data.reverse.getD j 0 = data.getD (data.length - 1 - j) 0 := by
  rw [List.getD_eq_getElem?_getD, List.getD_eq_getElem?_getD,
    List.getElem?_reverse (by simpa using hj)]

theorem chain_getD (data : List ℚ) (hne : data ≠ []) (k : ℕ) (h1 : 1 ≤ k)
    (h2 : k ≤ data.length) :
    (data.getLast hne :: data.reverse).getD k 0 = data.getD (data.length - k) 0 := by
  rcases k with _ | k
  · omega
  · rw [List.getD_cons_succ, reverse_getD data k (by omega)]
    congr 1
    omega

theorem clean_incrementing_reverse_diff_eq (data : List ℚ) (hne : data ≠ []) (i : ℕ)
    (hi : i + 1 < data.length) :
    get_from_incrementing (fun n => (clean_incrementing_reverse data)[n]?) (i : ℤ)
      = some (if data.getD (i + 1) 0 ≤ data.getD i 0
          then data.getD i 0 - data.getD (i + 1) 0 else 0) := by
  have hnot : ¬((i : ℤ) < 0) := by omega
  have hv1 := clean_incrementing_reverse_getElem? data hne i (by omega)
  have hv2 := clean_incrementing_reverse_getElem? data hne (i + 1) (by omega)
  rw [get_from_incrementing]
  simp only [hnot, if_false, Int.toNat_natCast, hv1, hv2]
  have hm : data.length - 1 - (i + 1) + 1 = data.length - 1 - i := by omega
  rw [hm, Finset.sum_range_succ]
  have hd1 : (data.getLast hne :: data.reverse).getD (data.length - 1 - i) 0
      = data.getD (i + 1) 0 := by
    rw [chain_getD data hne _ (by omega) (by omega)]
    congr 1
    omega
  have hd2 : (data.getLast hne :: data.reverse).getD (data.length - 1 - i + 1) 0
      = data.getD i 0 := by
    rw [chain_getD data hne _ (by omega) (by omega)]
    congr 1
    omega
  rw [chainDelta, hd1, hd2]
  congr 1
  ring

/-- C9: composing `clean_incrementing_reverse` with per-minute
differencing through `get_from_incrementing` yields a defined,
nonnegative value at every index of a dense backward series, and the
differences sum to the net forward increment of the original series with
resets removed. -/
theorem clean_incrementing_reverse_diffs (data : List ℚ) (hne : data ≠ []) :
    (∀ i : ℕ, i + 1 < data.length →
        ∃ d, get_from_incrementing (fun n => (clean_incrementing_reverse data)[n]?) (i : ℤ)
            = some d ∧ 0 ≤ d) ∧
      ∑ i ∈ Finset.range (data.length - 1),
          (get_from_incrementing
            (fun n => (clean_incrementing_reverse data)[n]?) (i : ℤ)).getD 0
        = netForwardIncrement data := by
  constructor
  · intro i hi
    refine ⟨_, clean_incrementing_reverse_diff_eq data hne i hi, ?_⟩
    split_ifs with h
    · linarith
    · exact le_refl 0
  · rw [netForwardIncrement]
    refine Finset.sum_congr rfl ?_
    intro i hi
    rw [clean_incrementing_reverse_diff_eq data hne i (by simp at hi; omega)]
    rfl

/-- Witness for C9 at the concrete backward series `[5, 3, 10]` (newest
sample 5, oldest 10, with a reset in between). -/
theorem clean_incrementing_reverse_diffs_witness :
    (∃ d, get_from_incrementing
        (fun n => (clean_incrementing_reverse [5, 3, 10])[n]?) (0 : ℤ) = some d ∧ 0 ≤ d) ∧
      ∑ i ∈ Finset.range 2,
          (get_from_incrementing
            (fun n => (clean_incrementing_reverse [5, 3, 10])[n]?) (i : ℤ)).getD 0
        = netForwardIncrement [5, 3, 10] := by
  have h := clean_incrementing_reverse_diffs [5, 3, 10] (by simp)
  exact ⟨h.1 0 (by norm_num), h.2⟩

/-- C5 (evidence of the code bug): with a single slot set exactly to the
reserve, `discard_unused_charge_slots` returns two empty lists, although
both the specification and the comment in the source promise that at
least one slot is always retained. -/
theorem discard_unused_charge_slots_empty :
    discard_unused_charge_slots [1] [⟨0, 5, 0⟩] 1 = some ([], []) := by
  have hdp : dp2 (1 : ℚ) = 1 := dp2_of_mul_eq_int 1 100 (by norm_num)
  rw [discard_unused_charge_slots, dusGo]
  rw [if_neg (by rw [hdp]; exact lt_irrefl 1)]
  rfl

theorem rrStep_isSome_self (house : ℚ) (r : ℕ → Option ℚ) (m : ℕ) :
    ((rrStep house r m) m).isSome := by
  rw [rrStep]
  rcases hm : r m with _ | v
  · rcases hmod : r (m % (24 * 60)) with _ | w <;> simp [Function.update_same]
  · simp [hm]

theorem rrStep_isSome_preserve (house : ℚ) (r : ℕ → Option ℚ) (m x : ℕ)
    (hx : (r x).isSome) : ((rrStep house r m) x).isSome := by
  rw [rrStep]
  rcases hm : r m with _ | v
  · rcases eq_or_ne x m with rfl | hne
    · rcases hmod : r (x % (24 * 60)) with _ | w <;> simp [Function.update_same]
    · rcases hmod : r (m % (24 * 60)) with _ | w <;>
        simpa [Function.update_noteq hne] using hx
  · exact hx

theorem rrStep_eq_of_isSome (house : ℚ) (r : ℕ → Option ℚ) (m : ℕ)
    (h : (r m).isSome) : rrStep house r m = r := by
  rw [rrStep]
  rcases hm : r m with _ | v
  · rw [hm] at h
    cases h
  · rfl

theorem rrFoldl_isSome_preserve (house : ℚ) (l : List ℕ) (r : ℕ → Option ℚ) (x : ℕ)
    (hx : (r x).isSome) : ((l.foldl (rrStep house) r) x).isSome := by
  induction l generalizing r with
  | nil => exact hx
  | cons m rest ih => exact ih _ (rrStep_isSome_preserve house r m x hx)

theorem rrFoldl_isSome_mem (house : ℚ) (l : List ℕ) (r : ℕ → Option ℚ) (x : ℕ)
    (hx : x ∈ l) : ((l.foldl (rrStep house) r) x).isSome := by
  induction l generalizing r with
  | nil => cases hx
  | cons m rest ih =>
      rcases List.mem_cons.mp hx with rfl | hmem
      · exact rrFoldl_isSome_preserve house rest _ x (rrStep_isSome_self house r x)
      · exact ih _ hmem

theorem rrFoldl_eq_of_isSome (house : ℚ) (l : List ℕ) (r : ℕ → Option ℚ)
    (h : ∀ x ∈ l, (r x).isSome) : l.foldl (rrStep house) r = r := by
  induction l with
  | nil => rfl
  | cons m rest ih =>
      rw [List.foldl_cons, rrStep_eq_of_isSome house r m (h m (by simp))]
      exact ih (fun x hx => h x (by simp [hx]))

/-- C8: `rate_replicate` defines every minute of
`[0, forecast_minutes + 24*60)` and is idempotent: a second application
returns exactly the same curve. -/
theorem rate_replicate_idempotent (fm : ℕ) (house : ℚ) (rates : ℕ → Option ℚ) :
    (∀ m, m < fm + 24 * 60 → (rate_replicate fm house rates m).isSome) ∧
      rate_replicate fm house (rate_replicate fm house rates)
        = rate_replicate fm house rates := by
  constructor
  · intro m hm
    exact rrFoldl_isSome_mem house _ rates m (List.mem_range.mpr hm)
  · exact rrFoldl_eq_of_isSome house _ _
      (fun x hx => rrFoldl_isSome_mem house _ rates x hx)

/-- Witness for C8 at a concrete (empty) starting curve. -/
theorem rate_replicate_idempotent_witness :
    (rate_replicate 0 7 (fun _ => none) 5).isSome ∧
      rate_replicate 0 7 (rate_replicate 0 7 (fun _ => none))
        = rate_replicate 0 7 (fun _ => none) :=
  ⟨(rate_replicate_idempotent 0 7 (fun _ => none)).1 5 (by norm_num),
   (rate_replicate_idempotent 0 7 (fun _ => none)).2⟩

theorem clamp_soc_bounds (p : Params) (rec : Bool) (ma : ℕ) (m : Mid)
    (hrs : p.reserve ≤ p.soc_max) :
    p.reserve ≤ (socMaxClampCalc p rec ma (reserveClampCalc p rec ma m)).soc ∧
      (socMaxClampCalc p rec ma (reserveClampCalc p rec ma m)).soc ≤ p.soc_max := by
  rw [reserveClampCalc, socMaxClampCalc]
  split_ifs <;> simp_all

theorem stepSim_soc_bounds (p : Params) (charge_limit : List ℚ)
    (charge_window discharge_window : List Window) (discharge_enable : List Bool)
    (load_minutes pv_forecast_minute : ℕ → Option ℚ) (step : ℕ) (end_record : ℤ)
    (minute : ℕ) (st st' : SimState) (hrs : p.reserve ≤ p.soc_max)
    (h : stepSim p charge_limit charge_window discharge_window discharge_enable
      load_minutes pv_forecast_minute step end_record minute st = some st') :
    p.reserve ≤ st'.soc ∧ st'.soc ≤ p.soc_max := by
  simp only [stepSim] at h
  repeat' split at h
  all_goals first
    | exact Option.noConfusion h
    | (rw [Option.some.injEq] at h
       subst h
       exact clamp_soc_bounds p _ _ _ hrs)

/-- C1: assuming `reserve <= soc_max`, after every simulated step of
`run_prediction` (that is, after the end-of-step clamp) the battery
state of charge satisfies `reserve <= soc <= soc_max`.
`run_prediction` runs `runSim` with `end_record = record_length` for
`ceil(forecast_minutes / step)` steps, and the state after each of its
steps is `runSim` at some `n >= 1`, so this covers every plan, load
curve and PV curve. -/
theorem run_prediction_soc_invariant (p : Params) (charge_limit : List ℚ)
    (charge_window discharge_window : List Window) (discharge_enable : List Bool)
    (load_minutes pv_forecast_minute : ℕ → Option ℚ) (step : ℕ) (end_record : ℤ)
    (hrs : p.reserve ≤ p.soc_max) (n : ℕ) (hn : 1 ≤ n) (st : SimState)
    (hrun : runSim p charge_limit charge_window discharge_window discharge_enable
      load_minutes pv_forecast_minute step end_record n = some st) :
    p.reserve ≤ st.soc ∧ st.soc ≤ p.soc_max := by
  rcases n with _ | m
  · omega
  · rw [runSim] at hrun
    rcases hm : runSim p charge_limit charge_window discharge_window discharge_enable
        load_minutes pv_forecast_minute step end_record m with _ | st0
    · rw [hm] at hrun
      cases hrun
    · rw [hm] at hrun
      exact stepSim_soc_bounds p charge_limit charge_window discharge_window
        discharge_enable load_minutes pv_forecast_minute step end_record (m * step)
        st0 st hrs hrun

/-- Witness for C1: one concrete simulated step of the trivial
configuration ends with the SOC inside `[reserve, soc_max] = [0, 1]`. -/
theorem run_prediction_soc_invariant_witness :
    runSim pTriv [] [] [] [] (fun _ => some 0) (fun _ => none) 5 5 1 = some stTriv ∧
      ((0 : ℚ) ≤ stTriv.soc ∧ stTriv.soc ≤ 1) := by
  have hrun : runSim pTriv [] [] [] [] (fun _ => some 0) (fun _ => none) 5 5 1
      = some stTriv := by
    simp only [runSim, initSimState, stepSim, pTriv, stTriv, pvStep, loadStep,
      get_from_incrementing, in_charge_window, icwGo, loadCarCalc, loadOctCalc,
      branchCalc, assembleState, elifBranch, idleBranchCalc,
      reserveClampCalc, socMaxClampCalc, in_octopus_slot, iosGo]
    norm_num
  refine ⟨hrun, ?_⟩
  have h := run_prediction_soc_invariant pTriv [] [] [] [] (fun _ => some 0)
    (fun _ => none) 5 5 (by norm_num [pTriv]) 1 (by norm_num) stTriv hrun
  simpa [pTriv] using h

/-- C2 (counterexample): a minute missing from the load curve does not
contribute zero; it raises a KeyError, so `run_prediction` is not total
and returns no result here (modelled as `none`). -/
theorem run_prediction_missing_load_raises :
    run_prediction pTriv [] [] [] [] (fun _ => none) (fun _ => none) 5 = none := by
  simp only [run_prediction, record_length, max_charge_windows, mcwGo, runSim,
    initSimState, stepSim, pTriv, pvStep, loadStep, get_from_incrementing]
  norm_num

theorem get_from_incrementing_isSome (data : ℕ → Option ℚ)
    (hdata : ∀ i, (data i).isSome) (index : ℤ) :
    (get_from_incrementing data index).isSome := by
  rw [get_from_incrementing]
  set i : ℕ := (if index < 0 then index % (24 * 60) else index).toNat
  rcases h1 : data i with _ | a
  · have := hdata i
    rw [h1] at this
    cases this
  · rcases h2 : data (i + 1) with _ | b
    · have := hdata (i + 1)
      rw [h2] at this
      cases this
    · simp

theorem loadStep_isSome (data : ℕ → Option ℚ) (hdata : ∀ i, (data i).isSome)
    (base : ℤ) (k : ℕ) : (loadStep data base k).isSome := by
  induction k with
  | zero => simp [loadStep]
  | succ k ih =>
      rw [loadStep]
      rcases h1 : loadStep data base k with _ | acc
      · rw [h1] at ih
        cases ih
      · rcases h2 : get_from_incrementing data (base - (k : ℤ)) with _ | v
        · have := get_from_incrementing_isSome data hdata (base - (k : ℤ))
          rw [h2] at this
          cases this
        · simp

theorem iosGo_isSome (rate : ℚ) (slots : List OctSlot) (minute : ℕ) :
    (iosGo rate slots minute).isSome := by
  induction slots with
  | nil => simp [iosGo]
  | cons slot rest ih =>
      rw [iosGo]
      split_ifs with hin
      · rw [pyDiv_some]
        · simp
        · have h1 : (slot.start_minutes : ℚ) < (slot.end_minutes : ℚ) := by
            exact_mod_cast lt_of_le_of_lt hin.1 hin.2
          intro hzero
          rw [div_eq_zero_iff] at hzero
          rcases hzero with hz | hz
          · linarith
          · norm_num at hz
      · exact ih

theorem elifBranch_isSome (p : Params) (discharge_enable : List Bool)
    (discharge_window_n : Option ℕ) (in_charge_slot record : Bool)
    (minute_absolute step : ℕ) (pv_now load_yesterday : ℚ) (m : Mid)
    (hlen : ∀ n, discharge_window_n = some n → n < discharge_enable.length) :
    (elifBranch p discharge_enable discharge_window_n in_charge_slot record
      minute_absolute step pv_now load_yesterday m).isSome := by
  rcases discharge_window_n with _ | n
  · simp [elifBranch]
  · simp only [elifBranch]
    split_ifs with hsoc
    · rcases hlook : discharge_enable[n]? with _ | en
      · rw [List.getElem?_eq_none_iff] at hlook
        exact absurd (hlen n rfl) (by omega)
      · simp only [hlook]
        split_ifs <;> simp
    · simp

theorem chargeBranchCalc_isSome (p : Params) (record : Bool) (minute_absolute step : ℕ)
    (limit pv_now load_yesterday : ℚ) (m : Mid) (hloss : p.battery_loss ≠ 0) :
    (chargeBranchCalc p record minute_absolute step limit pv_now load_yesterday m).isSome := by
  rw [chargeBranchCalc]
  split_ifs
  · rw [pyDiv_some hloss]
    simp
  · simp

theorem icwGo_some_bound (m : ℕ) (l : List Window) :
    ∀ (k n : ℕ), icwGo m k l = some n → n < k + l.length := by
  induction l with
  | nil => intro k n h; cases h
  | cons w rest ih =>
      intro k n h
      rw [icwGo] at h
      split_ifs at h with hw
      · cases h
        simp
      · have := ih (k + 1) n h
        simp at this ⊢
        omega

theorem in_charge_window_some_bound (cw : List Window) (m n : ℕ)
    (h : in_charge_window cw m = some n) : n < cw.length := by
  have := icwGo_some_bound m cw 0 n h
  omega

theorem loadCarCalc_isSome (p : Params) (my : ℤ) (step : ℕ) (load0 : ℚ)
    (hcar : ∀ f, p.car_charging_energy = some f → ∀ i, (f i).isSome) :
    (loadCarCalc p my step load0).isSome := by
  rw [loadCarCalc]
  by_cases hhold : p.car_charging_hold = true
  · rw [if_pos hhold]
    rcases hce : p.car_charging_energy with _ | car
    · simp
    · obtain ⟨ce, hcs⟩ := Option.isSome_iff_exists.mp (loadStep_isSome car (hcar car hce) my step)
      simp [hcs]
  · rw [if_neg hhold]
    simp

theorem loadOctCalc_isSome (p : Params) (ma step : ℕ) (load1 : ℚ) :
    (loadOctCalc p ma step load1).isSome := by
  rw [loadOctCalc]
  obtain ⟨cl, hio⟩ := Option.isSome_iff_exists.mp
    (iosGo_isSome p.car_charging_rate p.octopus_slots ma)
  by_cases hrate : p.car_charging_rate ≠ 0
  · rw [if_pos hrate, in_octopus_slot]
    simp [hio]
  · rw [if_neg hrate]
    simp

theorem branchCalc_isSome (p : Params) (charge_limit : List ℚ) (discharge_enable : List Bool)
    (cwn dwn : Option ℕ) (record : Bool) (ma step : ℕ) (pv_now load_yesterday : ℚ) (m : Mid)
    (hcl : ∀ n, cwn = some n → n < charge_limit.length)
    (hde : ∀ n, dwn = some n → n < discharge_enable.length)
    (hloss : p.battery_loss ≠ 0) :
    (branchCalc p charge_limit discharge_enable cwn dwn record ma step pv_now
      load_yesterday m).isSome := by
  rcases cwn with _ | n
  · simp only [branchCalc]
    exact elifBranch_isSome p discharge_enable dwn _ record ma step pv_now load_yesterday m hde
  · simp only [branchCalc]
    split_ifs with hen
    · rcases hlim : charge_limit[n]? with _ | limit
      · rw [List.getElem?_eq_none_iff] at hlim
        exact absurd (hcl n rfl) (by omega)
      · simp only [hlim]
        split_ifs with hsoc
        · exact chargeBranchCalc_isSome p record ma step limit pv_now load_yesterday m hloss
        · exact elifBranch_isSome p discharge_enable dwn _ record ma step pv_now
            load_yesterday m hde
    · exact elifBranch_isSome p discharge_enable dwn _ record ma step pv_now
        load_yesterday m hde

theorem stepSim_isSome (p : Params) (charge_limit : List ℚ)
    (charge_window discharge_window : List Window) (discharge_enable : List Bool)
    (load_minutes pv_forecast_minute : ℕ → Option ℚ) (step : ℕ) (end_record : ℤ)
    (minute : ℕ) (st : SimState)
    (hload : ∀ i, (load_minutes i).isSome)
    (hcar : ∀ f, p.car_charging_energy = some f → ∀ i, (f i).isSome)
    (hlen1 : charge_window.length ≤ charge_limit.length)
    (hlen2 : discharge_window.length ≤ discharge_enable.length)
    (hloss : p.battery_loss ≠ 0) :
    (stepSim p charge_limit charge_window discharge_window discharge_enable
      load_minutes pv_forecast_minute step end_record minute st).isSome := by
  simp only [stepSim]
  obtain ⟨load0, hls⟩ := Option.isSome_iff_exists.mp (loadStep_isSome load_minutes hload
    (24 * 60 - (minute : ℤ) + 24 * 60 * ((p.days_previous : ℤ) - 1)) step)
  simp only [hls]
  obtain ⟨load1, hlc⟩ := Option.isSome_iff_exists.mp (loadCarCalc_isSome p
    (24 * 60 - (minute : ℤ) + 24 * 60 * ((p.days_previous : ℤ) - 1)) step load0 hcar)
  simp only [hlc]
  obtain ⟨load2, hlo⟩ := Option.isSome_iff_exists.mp (loadOctCalc_isSome p
    (minute + p.minutes_now) step load1)
  simp only [hlo]
  obtain ⟨mid1, hmb⟩ := Option.isSome_iff_exists.mp (branchCalc_isSome p charge_limit
    discharge_enable (in_charge_window charge_window (minute + p.minutes_now))
    (in_charge_window discharge_window (minute + p.minutes_now))
    (st.record && decide ((minute : ℤ) < end_record)) (minute + p.minutes_now) step
    (pvStep pv_forecast_minute (minute + p.minutes_now) step) load2
    { soc := st.soc, metric := st.metric, import_kwh := st.import_kwh,
      import_kwh_house := st.import_kwh_house,
      import_kwh_battery := st.import_kwh_battery,
      export_kwh := st.export_kwh, discharge_has_run := st.discharge_has_run }
    (fun n hn => lt_of_lt_of_le (in_charge_window_some_bound _ _ _ hn) hlen1)
    (fun n hn => lt_of_lt_of_le (in_charge_window_some_bound _ _ _ hn) hlen2) hloss)
  simp only [hmb]
  simp


theorem assembleState_final_soc (p : Params) (cwn : Option ℕ) (record : Bool)
    (minute ma : ℕ) (pv load : ℚ) (st : SimState) (mid1 : Mid) :
    (assembleState p cwn record minute ma pv load st mid1).final_soc =
      if record then
        some (socMaxClampCalc p record ma (reserveClampCalc p record ma mid1)).soc
      else st.final_soc := rfl

theorem stepSim_final_soc_isSome (p : Params) (charge_limit : List ℚ)
    (charge_window discharge_window : List Window) (discharge_enable : List Bool)
    (load_minutes pv_forecast_minute : ℕ → Option ℚ) (step : ℕ) (end_record : ℤ)
    (minute : ℕ) (st st' : SimState)
    (h : stepSim p charge_limit charge_window discharge_window discharge_enable
      load_minutes pv_forecast_minute step end_record minute st = some st')
    (hok : st.final_soc.isSome ∨ (st.record = true ∧ (minute : ℤ) < end_record)) :
    st'.final_soc.isSome := by
  simp only [stepSim] at h
  repeat' split at h
  all_goals first
    | exact Option.noConfusion h
    | (rw [Option.some.injEq] at h
       subst h
       rw [assembleState_final_soc]
       rcases hok with hfs | ⟨hr, hlt⟩
       · split_ifs <;> simp_all
       · rw [if_pos (by simp [hr, hlt])]
         simp)

theorem runSim_isSome (p : Params) (charge_limit : List ℚ)
    (charge_window discharge_window : List Window) (discharge_enable : List Bool)
    (load_minutes pv_forecast_minute : ℕ → Option ℚ) (step : ℕ) (end_record : ℤ)
    (hload : ∀ i, (load_minutes i).isSome)
    (hcar : ∀ f, p.car_charging_energy = some f → ∀ i, (f i).isSome)
    (hlen1 : charge_window.length ≤ charge_limit.length)
    (hlen2 : discharge_window.length ≤ discharge_enable.length)
    (hloss : p.battery_loss ≠ 0) (n : ℕ) :
    (runSim p charge_limit charge_window discharge_window discharge_enable
      load_minutes pv_forecast_minute step end_record n).isSome := by
  induction n with
  | zero => simp [runSim]
  | succ m ih =>
      rw [runSim]
      obtain ⟨st, hst⟩ := Option.isSome_iff_exists.mp ih
      rw [hst]
      exact stepSim_isSome p charge_limit charge_window discharge_window discharge_enable
        load_minutes pv_forecast_minute step end_record (m * step) st hload hcar
        hlen1 hlen2 hloss

theorem runSim_final_soc_isSome (p : Params) (charge_limit : List ℚ)
    (charge_window discharge_window : List Window) (discharge_enable : List Bool)
    (load_minutes pv_forecast_minute : ℕ → Option ℚ) (step : ℕ) (end_record : ℤ)
    (hend : 0 < end_record) (n : ℕ) (hn : 1 ≤ n) (st : SimState)
    (hrun : runSim p charge_limit charge_window discharge_window discharge_enable
      load_minutes pv_forecast_minute step end_record n = some st) :
    st.final_soc.isSome := by
  induction n generalizing st with
  | zero => omega
  | succ m ih =>
      rw [runSim] at hrun
      rcases hm : runSim p charge_limit charge_window discharge_window discharge_enable
          load_minutes pv_forecast_minute step end_record m with _ | st0
      · rw [hm] at hrun
        cases hrun
      · rw [hm] at hrun
        rcases Nat.eq_zero_or_pos m with rfl | hmpos
        · have hst0 : st0 = initSimState p := by
            rw [runSim] at hm
            exact (Option.some.inj hm).symm
          refine stepSim_final_soc_isSome p charge_limit charge_window discharge_window
            discharge_enable load_minutes pv_forecast_minute step end_record (0 * step)
            st0 st hrun (Or.inr ⟨?_, ?_⟩)
          · rw [hst0]
            rfl
          · simpa using hend
        · exact stepSim_final_soc_isSome p charge_limit charge_window discharge_window
            discharge_enable load_minutes pv_forecast_minute step end_record (m * step)
            st0 st hrun (Or.inl (ih hmpos st0 hm))

theorem record_length_le (p : Params) (charge_window : List Window) :
    record_length p charge_window ≤ (p.forecast_minutes : ℤ) - (p.minutes_now : ℤ) := by
  rw [record_length]
  split_ifs with hlen
  · rcases hw : charge_window[max_charge_windows p.forecast_minutes charge_window]? with _ | w
    · simp only [hw]
      omega
    · simp only [hw]
      have : min p.forecast_minutes w.start ≤ p.forecast_minutes := min_le_left _ _
      push_cast
      omega
  · omega

theorem charge_limit_percent_calc_isSome (soc_max : ℚ) (charge_limit : List ℚ)
    (hsoc : soc_max ≠ 0 ∨ charge_limit = []) :
    (charge_limit_percent_calc soc_max charge_limit).isSome := by
  rcases charge_limit with _ | ⟨c, cl⟩
  · simp [charge_limit_percent_calc]
  · rcases hsoc with hsoc | hsoc
    · simp [charge_limit_percent_calc, hsoc]
    · cases hsoc

/-- C2 (amended): `run_prediction` is total provided the load curve (and
the car-charging-energy curve when in use) is defined at every key, the
plan lists are at least as long as their window lists, the step is
positive, `battery_loss` is nonzero, `soc_max` is nonzero (or the charge
plan empty), and the recording window is nonempty. A minute missing from
the PV curve contributes zero to the step, and a minute missing from a
rate curve falls back to the `metric_*` rates; but a minute missing from
a load curve raises a KeyError, so totality does not extend to partial
load curves (see the counterexample). -/
theorem run_prediction_total (p : Params) (charge_limit : List ℚ)
    (charge_window discharge_window : List Window) (discharge_enable : List Bool)
    (load_minutes pv_forecast_minute : ℕ → Option ℚ) (step : ℕ)
    (hstep : step ≠ 0)
    (hload : ∀ i, (load_minutes i).isSome)
    (hcar : ∀ f, p.car_charging_energy = some f → ∀ i, (f i).isSome)
    (hlen1 : charge_window.length ≤ charge_limit.length)
    (hlen2 : discharge_window.length ≤ discharge_enable.length)
    (hloss : p.battery_loss ≠ 0)
    (hsoc : p.soc_max ≠ 0 ∨ charge_limit = [])
    (hrec : 0 < record_length p charge_window) :
    (run_prediction p charge_limit charge_window discharge_window discharge_enable
      load_minutes pv_forecast_minute step).isSome := by
  rw [run_prediction, if_neg hstep]
  have hfm : 1 ≤ p.forecast_minutes := by
    have := record_length_le p charge_window
    omega
  have hn : 1 ≤ (p.forecast_minutes + step - 1) / step := by
    rw [Nat.le_div_iff_mul_le (by omega)]
    omega
  obtain ⟨st, hst⟩ := Option.isSome_iff_exists.mp (runSim_isSome p charge_limit
    charge_window discharge_window discharge_enable load_minutes pv_forecast_minute
    step (record_length p charge_window) hload hcar hlen1 hlen2 hloss
    ((p.forecast_minutes + step - 1) / step))
  simp only [hst]
  obtain ⟨fs, hfs⟩ := Option.isSome_iff_exists.mp (runSim_final_soc_isSome p charge_limit
    charge_window discharge_window discharge_enable load_minutes pv_forecast_minute
    step (record_length p charge_window) hrec _ hn st hst)
  obtain ⟨pct, hpct⟩ := Option.isSome_iff_exists.mp
    (charge_limit_percent_calc_isSome p.soc_max charge_limit hsoc)
  simp only [hfs, hpct]
  simp

/-- Witness for C2 (amended) at the trivial configuration with a total
zero load curve. -/
theorem run_prediction_total_witness :
    (run_prediction pTriv [] [] [] [] (fun _ => some 0) (fun _ => none) 5).isSome := by
  refine run_prediction_total pTriv [] [] [] [] (fun _ => some 0) (fun _ => none) 5
    (by norm_num) (fun i => by simp) (fun f hf => by simp [pTriv] at hf)
    (by simp) (by simp) (by norm_num [pTriv]) (Or.inr rfl) ?_
  simp only [record_length, max_charge_windows, mcwGo, pTriv]
  norm_num

/-- C4 (counterexample): for a single window straddling the horizon
(start 100, end 200, horizon 150), `record_length` truncates at the
window start, 100, while the claimed formula (truncate at the first
window whose start is beyond the horizon) gives 150. -/
theorem record_length_counterexample :
    record_length pC4 [⟨100, 200, 0⟩] = 100 ∧ claimedEndRecord pC4 [⟨100, 200, 0⟩] = 150 ∧
      (100 : ℤ) ≠ 150 := by
  refine ⟨?_, ?_, by norm_num⟩
  · simp only [record_length, max_charge_windows, mcwGo, pC4, pTriv]
    norm_num
  · simp only [claimedEndRecord, List.find?, pC4, pTriv]
    norm_num

theorem mcwGo_all_gt (fm : ℕ) (cw : List Window) (hall : ∀ w ∈ cw, fm < w.end_) :
    ∀ (k acc : ℕ), mcwGo fm k acc cw = acc := by
  induction cw with
  | nil => intro k acc; rfl
  | cons w rest ih =>
      intro k acc
      rw [mcwGo, if_neg (by have := hall w (by simp); omega)]
      exact ih (fun w' hw' => hall w' (by simp [hw'])) (k + 1) acc

theorem mcwGo_sorted (fm : ℕ) (cw : List Window)
    (hpair : cw.Pairwise (fun a b => a.end_ < b.end_)) :
    ∀ (k acc : ℕ), mcwGo fm k acc cw =
      if firstEndBeyondIdx fm cw = 0 then acc else k + firstEndBeyondIdx fm cw := by
  induction cw with
  | nil => intro k acc; rfl
  | cons w rest ih =>
      intro k acc
      rcases List.pairwise_cons.mp hpair with ⟨hw, hrest⟩
      by_cases hend : fm < w.end_
      · rw [firstEndBeyondIdx, if_pos hend, mcwGo, if_neg (by omega)]
        rw [mcwGo_all_gt fm rest (fun w' hw' => lt_trans hend (hw w' hw')) (k + 1) acc]
        simp
      · rw [firstEndBeyondIdx, if_neg hend, mcwGo, if_pos (by omega)]
        rw [ih hrest (k + 1) (k + 1)]
        rcases Nat.eq_zero_or_pos (firstEndBeyondIdx fm rest) with hJ | hJ
        · rw [hJ]
          norm_num
        · rw [if_neg (by omega), if_neg (by omega)]
          omega

theorem max_charge_windows_sorted (fm : ℕ) (cw : List Window)
    (hpair : cw.Pairwise (fun a b => a.end_ < b.end_)) :
    max_charge_windows fm cw = firstEndBeyondIdx fm cw := by
  rw [max_charge_windows, mcwGo_sorted fm cw hpair 0 0]
  split_ifs <;> omega

theorem firstEndBeyondIdx_of_find?_none (fm : ℕ) (cw : List Window)
    (h : cw.find? (fun w => decide (fm < w.end_)) = none) :
    firstEndBeyondIdx fm cw = cw.length := by
  induction cw with
  | nil => rfl
  | cons w rest ih =>
      rw [List.find?_cons] at h
      split at h
      · cases h
      · rename_i hdec
        rw [firstEndBeyondIdx, if_neg (by simpa using hdec), ih h]
        rfl

theorem firstEndBeyondIdx_of_find?_some (fm : ℕ) (cw : List Window) (w : Window)
    (h : cw.find? (fun w => decide (fm < w.end_)) = some w) :
    firstEndBeyondIdx fm cw < cw.length ∧ cw[firstEndBeyondIdx fm cw]? = some w := by
  induction cw with
  | nil => cases h
  | cons w0 rest ih =>
      rw [List.find?_cons] at h
      split at h
      · rename_i hdec
        obtain rfl := Option.some.inj h
        refine ⟨?_, ?_⟩ <;> rw [firstEndBeyondIdx, if_pos (by simpa using hdec)] <;> simp
      · rename_i hdec
        obtain ⟨hlt, hget⟩ := ih h
        rw [firstEndBeyondIdx, if_neg (by simpa using hdec)]
        refine ⟨by simpa using hlt, by simpa using hget⟩

theorem record_length_sorted_eq (p : Params) (cw : List Window)
    (hpair : cw.Pairwise (fun a b => a.end_ < b.end_)) :
    record_length p cw =
      ((match cw.find? (fun w => decide (p.forecast_minutes < w.end_)) with
        | some w => min p.forecast_minutes w.start
        | none => p.forecast_minutes : ℕ) : ℤ) - (p.minutes_now : ℤ) := by
  rw [record_length, max_charge_windows_sorted p.forecast_minutes cw hpair]
  rcases hf : cw.find? (fun w => decide (p.forecast_minutes < w.end_)) with _ | w
  · rw [if_neg (by have := firstEndBeyondIdx_of_find?_none p.forecast_minutes cw hf; omega)]
    rw [hf]
  · obtain ⟨hlt, hget⟩ := firstEndBeyondIdx_of_find?_some p.forecast_minutes cw w hf
    rw [if_pos (by omega)]
    simp only [hget, hf]


theorem sameAcc_refl (m : Mid) : sameAcc m m := ⟨rfl, rfl, rfl, rfl, rfl⟩

theorem sameAcc_trans {a b c : Mid} (h1 : sameAcc a b) (h2 : sameAcc b c) : sameAcc a c := by
  obtain ⟨x1, x2, x3, x4, x5⟩ := h1
  obtain ⟨y1, y2, y3, y4, y5⟩ := h2
  exact ⟨y1.trans x1, y2.trans x2, y3.trans x3, y4.trans x4, y5.trans x5⟩

theorem chargeBranchCalc_false_sameAcc (p : Params) (ma step : ℕ) (limit pv load : ℚ)
    (m mid' : Mid) (h : chargeBranchCalc p false ma step limit pv load m = some mid') :
    sameAcc m mid' := by
  simp only [chargeBranchCalc, Bool.false_eq_true, if_false] at h
  rw [Option.some.injEq] at h
  subst h
  exact ⟨rfl, rfl, rfl, rfl, rfl⟩

theorem dischargeBranchCalc_false_sameAcc (p : Params) (ma step : ℕ) (pv load : ℚ)
    (m : Mid) : sameAcc m (dischargeBranchCalc p false ma step pv load m) := by
  simp only [dischargeBranchCalc, Bool.false_eq_true, if_false]
  split_ifs <;> exact ⟨rfl, rfl, rfl, rfl, rfl⟩

theorem idleBranchCalc_false_sameAcc (p : Params) (ics : Bool) (ma step : ℕ) (pv load : ℚ)
    (m : Mid) : sameAcc m (idleBranchCalc p false ics ma step pv load m) := by
  simp only [idleBranchCalc, Bool.false_eq_true, if_false]
  split_ifs <;> exact ⟨rfl, rfl, rfl, rfl, rfl⟩

theorem elifBranch_false_sameAcc (p : Params) (de : List Bool) (dwn : Option ℕ) (ics : Bool)
    (ma step : ℕ) (pv load : ℚ) (m mid' : Mid)
    (h : elifBranch p de dwn ics false ma step pv load m = some mid') : sameAcc m mid' := by
  rcases dwn with _ | n
  · simp only [elifBranch, Option.some.injEq] at h
    subst h
    exact idleBranchCalc_false_sameAcc p ics ma step pv load m
  · simp only [elifBranch] at h
    repeat' split at h
    all_goals first
      | exact Option.noConfusion h
      | (rw [Option.some.injEq] at h
         subst h
         first
           | exact dischargeBranchCalc_false_sameAcc p ma step pv load m
           | exact idleBranchCalc_false_sameAcc p ics ma step pv load m)

theorem branchCalc_false_sameAcc (p : Params) (cl : List ℚ) (de : List Bool)
    (cwn dwn : Option ℕ) (ma step : ℕ) (pv load : ℚ) (m mid' : Mid)
    (h : branchCalc p cl de cwn dwn false ma step pv load m = some mid') :
    sameAcc m mid' := by
  rcases cwn with _ | n
  · simp only [branchCalc] at h
    exact elifBranch_false_sameAcc p de dwn _ ma step pv load m mid' h
  · simp only [branchCalc] at h
    repeat' split at h
    all_goals first
      | exact Option.noConfusion h
      | exact chargeBranchCalc_false_sameAcc p ma step _ pv load m mid' h
      | exact elifBranch_false_sameAcc p de dwn _ ma step pv load m mid' h

theorem reserveClampCalc_false_sameAcc (p : Params) (ma : ℕ) (m : Mid) :
    sameAcc m (reserveClampCalc p false ma m) := by
  simp only [reserveClampCalc, Bool.false_eq_true, if_false]
  split_ifs <;> exact ⟨rfl, rfl, rfl, rfl, rfl⟩

theorem socMaxClampCalc_false_sameAcc (p : Params) (ma : ℕ) (m : Mid) :
    sameAcc m (socMaxClampCalc p false ma m) := by
  simp only [socMaxClampCalc, Bool.false_eq_true, if_false]
  split_ifs <;> exact ⟨rfl, rfl, rfl, rfl, rfl⟩

theorem stepSim_frozen (p : Params) (charge_limit : List ℚ)
    (charge_window discharge_window : List Window) (discharge_enable : List Bool)
    (load_minutes pv_forecast_minute : ℕ → Option ℚ) (step : ℕ) (end_record : ℤ)
    (minute : ℕ) (st st' : SimState) (hmin : end_record ≤ (minute : ℤ))
    (h : stepSim p charge_limit charge_window discharge_window discharge_enable
      load_minutes pv_forecast_minute step end_record minute st = some st') :
    st'.metric = st.metric ∧ st'.import_kwh = st.import_kwh ∧
      st'.import_kwh_house = st.import_kwh_house ∧
      st'.import_kwh_battery = st.import_kwh_battery ∧ st'.export_kwh = st.export_kwh ∧
      st'.load_kwh = st.load_kwh ∧ st'.soc_min = st.soc_min ∧
      st'.final_soc = st.final_soc := by
  have hdec : decide ((minute : ℤ) < end_record) = false := decide_eq_false (by omega)
  have hrec : (st.record && decide ((minute : ℤ) < end_record)) = false := by
    rw [hdec, Bool.and_false]
  simp only [stepSim, hrec] at h
  rcases hls : loadStep load_minutes (24 * 60 - (minute : ℤ)
      + 24 * 60 * ((p.days_previous : ℤ) - 1)) step with _ | load0
  · simp only [hls] at h
    exact Option.noConfusion h
  · simp only [hls] at h
    rcases hlc : loadCarCalc p (24 * 60 - (minute : ℤ)
        + 24 * 60 * ((p.days_previous : ℤ) - 1)) step load0 with _ | load1
    · simp only [hlc] at h
      exact Option.noConfusion h
    · simp only [hlc] at h
      rcases hlo : loadOctCalc p (minute + p.minutes_now) step load1 with _ | load2
      · simp only [hlo] at h
        exact Option.noConfusion h
      · simp only [hlo] at h
        rcases hmb : branchCalc p charge_limit discharge_enable
            (in_charge_window charge_window (minute + p.minutes_now))
            (in_charge_window discharge_window (minute + p.minutes_now)) false
            (minute + p.minutes_now) step
            (pvStep pv_forecast_minute (minute + p.minutes_now) step) load2
            { soc := st.soc, metric := st.metric, import_kwh := st.import_kwh,
              import_kwh_house := st.import_kwh_house,
              import_kwh_battery := st.import_kwh_battery,
              export_kwh := st.export_kwh,
              discharge_has_run := st.discharge_has_run } with _ | mid1
        · simp only [hmb] at h
          exact Option.noConfusion h
        · simp only [hmb] at h
          rw [Option.some.injEq] at h
          subst h
          have hacc : sameAcc
              { soc := st.soc, metric := st.metric, import_kwh := st.import_kwh,
                import_kwh_house := st.import_kwh_house,
                import_kwh_battery := st.import_kwh_battery,
                export_kwh := st.export_kwh,
                discharge_has_run := st.discharge_has_run }
              (socMaxClampCalc p false (minute + p.minutes_now)
                (reserveClampCalc p false (minute + p.minutes_now) mid1)) :=
            sameAcc_trans (sameAcc_trans
              (branchCalc_false_sameAcc p charge_limit discharge_enable _ _ _ _ _ _ _ _ hmb)
              (reserveClampCalc_false_sameAcc p _ mid1))
              (socMaxClampCalc_false_sameAcc p _ _)
          obtain ⟨h1, h2, h3, h4, h5⟩ := hacc
          exact ⟨h1, h2, h3, h4, h5, rfl, rfl, rfl⟩

theorem chargeBranchCalc_map_soc (p : Params) (rec : Bool) (ma step : ℕ)
    (limit pv load : ℚ) (m : Mid) (hloss : p.battery_loss ≠ 0) :
    (chargeBranchCalc p rec ma step limit pv load m).map Mid.soc
      = some (min (m.soc + p.charge_rate * (step : ℚ)) limit) := by
  cases rec <;> simp [chargeBranchCalc, pyDiv_some hloss]

theorem dischargeBranchCalc_soc (p : Params) (rec : Bool) (ma step : ℕ) (pv load : ℚ)
    (m : Mid) :
    (dischargeBranchCalc p rec ma step pv load m).soc
      = m.soc - (if m.soc - p.reserve < p.discharge_rate * (step : ℚ)
          then m.soc - p.reserve else p.discharge_rate * (step : ℚ)) := by
  simp only [dischargeBranchCalc]
  split_ifs <;> rfl

theorem idleBranchCalc_soc (p : Params) (rec ics : Bool) (ma step : ℕ) (pv load : ℚ)
    (m : Mid) :
    (idleBranchCalc p rec ics ma step pv load m).soc =
      (if (if load - pv < 0 then (load - pv) * p.battery_loss else load - pv)
            > p.discharge_rate * (step : ℚ)
       then (if (if load - pv < 0 then (load - pv) * p.battery_loss else load - pv)
              < -(p.charge_rate * (step : ℚ))
             then m.soc - p.charge_rate * (step : ℚ) else m.soc)
            - p.discharge_rate * (step : ℚ)
       else (if (if load - pv < 0 then (load - pv) * p.battery_loss else load - pv)
              < -(p.charge_rate * (step : ℚ))
             then m.soc - p.charge_rate * (step : ℚ) else m.soc)
            - (if load - pv < 0 then (load - pv) * p.battery_loss else load - pv)) := by
  simp only [idleBranchCalc]
  split_ifs <;> rfl

theorem elifBranch_map_soc_indep (p : Params) (de : List Bool) (dwn : Option ℕ)
    (ics : Bool) (rec1 rec2 : Bool) (ma step : ℕ) (pv load : ℚ) (m : Mid) :
    (elifBranch p de dwn ics rec1 ma step pv load m).map Mid.soc
      = (elifBranch p de dwn ics rec2 ma step pv load m).map Mid.soc := by
  rcases dwn with _ | n
  · simp only [elifBranch, Option.map_some']
    rw [idleBranchCalc_soc, idleBranchCalc_soc]
  · simp only [elifBranch]
    split_ifs
    · rcases hde : de[n]? with _ | en
      · simp only [hde]
      · simp only [hde]
        rcases en
        · simp only [Bool.false_eq_true, if_false, Option.map_some']
          rw [idleBranchCalc_soc, idleBranchCalc_soc]
        · simp only [if_true, Option.map_some']
          rw [dischargeBranchCalc_soc, dischargeBranchCalc_soc]
    · simp only [Option.map_some']
      rw [idleBranchCalc_soc, idleBranchCalc_soc]

theorem branchCalc_map_soc_indep (p : Params) (cl : List ℚ) (de : List Bool)
    (cwn dwn : Option ℕ) (rec1 rec2 : Bool) (ma step : ℕ) (pv load : ℚ) (m : Mid)
    (hloss : p.battery_loss ≠ 0) :
    (branchCalc p cl de cwn dwn rec1 ma step pv load m).map Mid.soc
      = (branchCalc p cl de cwn dwn rec2 ma step pv load m).map Mid.soc := by
  rcases cwn with _ | n
  · simp only [branchCalc]
    exact elifBranch_map_soc_indep p de dwn _ rec1 rec2 ma step pv load m
  · simp only [branchCalc]
    split_ifs
    · rcases hlim : cl[n]? with _ | limit
      · simp only [hlim]
      · simp only [hlim]
        split_ifs
        · rw [chargeBranchCalc_map_soc p rec1 ma step limit pv load m hloss,
            chargeBranchCalc_map_soc p rec2 ma step limit pv load m hloss]
        · exact elifBranch_map_soc_indep p de dwn _ rec1 rec2 ma step pv load m
    · exact elifBranch_map_soc_indep p de dwn _ rec1 rec2 ma step pv load m

theorem reserveClampCalc_soc (p : Params) (rec : Bool) (ma : ℕ) (m : Mid) :
    (reserveClampCalc p rec ma m).soc = if m.soc < p.reserve then p.reserve else m.soc := by
  simp only [reserveClampCalc]
  split_ifs <;> rfl

theorem socMaxClampCalc_soc (p : Params) (rec : Bool) (ma : ℕ) (m : Mid) :
    (socMaxClampCalc p rec ma m).soc = if m.soc > p.soc_max then p.soc_max else m.soc := by
  simp only [socMaxClampCalc]
  split_ifs <;> rfl

theorem assembleState_soc (p : Params) (cwn : Option ℕ) (rec : Bool) (minute ma : ℕ)
    (pv load : ℚ) (st : SimState) (mid1 : Mid) :
    (assembleState p cwn rec minute ma pv load st mid1).soc
      = (socMaxClampCalc p rec ma (reserveClampCalc p rec ma mid1)).soc := rfl

theorem stepSim_map_soc_record_indep (p : Params) (charge_limit : List ℚ)
    (charge_window discharge_window : List Window) (discharge_enable : List Bool)
    (load_minutes pv_forecast_minute : ℕ → Option ℚ) (step : ℕ) (end_record : ℤ)
    (minute : ℕ) (st : SimState) (b1 b2 : Bool) (hloss : p.battery_loss ≠ 0) :
    (stepSim p charge_limit charge_window discharge_window discharge_enable
      load_minutes pv_forecast_minute step end_record minute
      { st with record := b1 }).map SimState.soc
      = (stepSim p charge_limit charge_window discharge_window discharge_enable
        load_minutes pv_forecast_minute step end_record minute
        { st with record := b2 }).map SimState.soc := by
  simp only [stepSim]
  rcases hls : loadStep load_minutes (24 * 60 - (minute : ℤ)
      + 24 * 60 * ((p.days_previous : ℤ) - 1)) step with _ | load0
  · simp only [hls]
  · simp only [hls]
    rcases hlc : loadCarCalc p (24 * 60 - (minute : ℤ)
        + 24 * 60 * ((p.days_previous : ℤ) - 1)) step load0 with _ | load1
    · simp only [hlc]
    · simp only [hlc]
      rcases hlo : loadOctCalc p (minute + p.minutes_now) step load1 with _ | load2
      · simp only [hlo]
      · simp only [hlo]
        have hbc := branchCalc_map_soc_indep p charge_limit discharge_enable
          (in_charge_window charge_window (minute + p.minutes_now))
          (in_charge_window discharge_window (minute + p.minutes_now))
          (b1 && decide ((minute : ℤ) < end_record))
          (b2 && decide ((minute : ℤ) < end_record)) (minute + p.minutes_now) step
          (pvStep pv_forecast_minute (minute + p.minutes_now) step) load2
          { soc := st.soc, metric := st.metric, import_kwh := st.import_kwh,
            import_kwh_house := st.import_kwh_house,
            import_kwh_battery := st.import_kwh_battery,
            export_kwh := st.export_kwh,
            discharge_has_run := st.discharge_has_run } hloss
        rcases h1 : branchCalc p charge_limit discharge_enable
            (in_charge_window charge_window (minute + p.minutes_now))
            (in_charge_window discharge_window (minute + p.minutes_now))
            (b1 && decide ((minute : ℤ) < end_record)) (minute + p.minutes_now) step
            (pvStep pv_forecast_minute (minute + p.minutes_now) step) load2
            { soc := st.soc, metric := st.metric, import_kwh := st.import_kwh,
              import_kwh_house := st.import_kwh_house,
              import_kwh_battery := st.import_kwh_battery,
              export_kwh := st.export_kwh,
              discharge_has_run := st.discharge_has_run } with _ | m1 <;>
          rcases h2 : branchCalc p charge_limit discharge_enable
              (in_charge_window charge_window (minute + p.minutes_now))
              (in_charge_window discharge_window (minute + p.minutes_now))
              (b2 && decide ((minute : ℤ) < end_record)) (minute + p.minutes_now) step
              (pvStep pv_forecast_minute (minute + p.minutes_now) step) load2
              { soc := st.soc, metric := st.metric, import_kwh := st.import_kwh,
                import_kwh_house := st.import_kwh_house,
                import_kwh_battery := st.import_kwh_battery,
                export_kwh := st.export_kwh,
                discharge_has_run := st.discharge_has_run } with _ | m2 <;>
        rw [h1, h2] at hbc <;>
          simp only [h1, h2, Option.map_some', Option.map_none',
            Option.some.injEq] at hbc ⊢
        all_goals first
          | exact Option.noConfusion hbc
          | rw [assembleState_soc, assembleState_soc, socMaxClampCalc_soc,
              socMaxClampCalc_soc, reserveClampCalc_soc, reserveClampCalc_soc, hbc]


/-- C4 (corrected): the spec says `record_length` truncates at the first
window whose start is beyond the forecast horizon; the code truncates at
the first window whose end exceeds it. Amended statement: (a) for
end-sorted window lists `record_length` returns
min(forecast_minutes, start of the first window whose end exceeds the
horizon) minus minutes_now; (b) a simulated step at a minute at or beyond
end_record leaves the metric, all import/export/load accumulators, the
minimum SOC and the recorded final SOC unchanged; (c) the battery SOC
still evolves, identically whatever the record flag. -/
theorem record_length_truncation_and_freeze :
    (∀ (p : Params) (cw : List Window),
        cw.Pairwise (fun a b => a.end_ < b.end_) →
        record_length p cw =
          ((match cw.find? (fun w => decide (p.forecast_minutes < w.end_)) with
            | some w => min p.forecast_minutes w.start
            | none => p.forecast_minutes : ℕ) : ℤ) - (p.minutes_now : ℤ))
    ∧ (∀ (p : Params) (charge_limit : List ℚ) (charge_window discharge_window : List Window)
        (discharge_enable : List Bool) (load_minutes pv_forecast_minute : ℕ → Option ℚ)
        (step : ℕ) (end_record : ℤ) (minute : ℕ) (st st' : SimState),
        end_record ≤ (minute : ℤ) →
        stepSim p charge_limit charge_window discharge_window discharge_enable
          load_minutes pv_forecast_minute step end_record minute st = some st' →
        st'.metric = st.metric ∧ st'.import_kwh = st.import_kwh ∧
          st'.import_kwh_house = st.import_kwh_house ∧
          st'.import_kwh_battery = st.import_kwh_battery ∧
          st'.export_kwh = st.export_kwh ∧ st'.load_kwh = st.load_kwh ∧
          st'.soc_min = st.soc_min ∧ st'.final_soc = st.final_soc)
    ∧ (∀ (p : Params) (charge_limit : List ℚ) (charge_window discharge_window : List Window)
        (discharge_enable : List Bool) (load_minutes pv_forecast_minute : ℕ → Option ℚ)
        (step : ℕ) (end_record : ℤ) (minute : ℕ) (st : SimState) (b1 b2 : Bool),
        p.battery_loss ≠ 0 →
        (stepSim p charge_limit charge_window discharge_window discharge_enable
          load_minutes pv_forecast_minute step end_record minute
          { st with record := b1 }).map SimState.soc
          = (stepSim p charge_limit charge_window discharge_window discharge_enable
            load_minutes pv_forecast_minute step end_record minute
            { st with record := b2 }).map SimState.soc) := by
  refine ⟨?_, ?_, ?_⟩
  · exact fun p cw hpair => record_length_sorted_eq p cw hpair
  · exact fun p cl cw dw de lm pv step er minute st st' hmin h =>
      stepSim_frozen p cl cw dw de lm pv step er minute st st' hmin h
  · exact fun p cl cw dw de lm pv step er minute st b1 b2 hloss =>
      stepSim_map_soc_record_indep p cl cw dw de lm pv step er minute st b1 b2 hloss

theorem record_length_truncation_and_freeze_witness :
    record_length pTriv [⟨0, 3, 0⟩] = 5
      ∧ (∃ st', stepSim pTriv [] [] [] [] (fun _ => some 0) (fun _ => none) 5 0 0
            (initSimState pTriv) = some st'
          ∧ st'.metric = (initSimState pTriv).metric
          ∧ st'.final_soc = (initSimState pTriv).final_soc)
      ∧ (stepSim pTriv [] [] [] [] (fun _ => some 0) (fun _ => none) 5 0 0
          { initSimState pTriv with record := true }).map SimState.soc
        = (stepSim pTriv [] [] [] [] (fun _ => some 0) (fun _ => none) 5 0 0
          { initSimState pTriv with record := false }).map SimState.soc := by
  obtain ⟨ha, hb, hc⟩ := record_length_truncation_and_freeze
  refine ⟨?_, ?_, ?_⟩
  · rw [ha pTriv [⟨0, 3, 0⟩] (by decide)]
    decide
  · have hsome : (stepSim pTriv [] [] [] [] (fun _ => some 0) (fun _ => none) 5 0 0
        (initSimState pTriv)).isSome :=
      stepSim_isSome pTriv [] [] [] [] (fun _ => some 0) (fun _ => none) 5 0 0
        (initSimState pTriv) (fun _ => rfl)
        (fun f hf => by simp only [pTriv] at hf; exact Option.noConfusion hf)
        le_rfl le_rfl (by norm_num [pTriv])
    obtain ⟨st', hstep⟩ := Option.isSome_iff_exists.mp hsome
    obtain ⟨h1, _, _, _, _, _, _, h8⟩ :=
      hb pTriv [] [] [] [] (fun _ => some 0) (fun _ => none) 5 0 0
        (initSimState pTriv) st' le_rfl hstep
    exact ⟨st', hstep, h1, h8⟩
  · exact hc pTriv [] [] [] [] (fun _ => some 0) (fun _ => none) 5 0 0
      (initSimState pTriv) true false (by norm_num [pTriv])


theorem fcwAccum_spec (rates : ℕ → Option ℚ) (thr : ℚ) (fh : Bool) (s : ℕ) (r0 : ℚ) :
    ∀ (fuel minute : ℕ) (sum : ℚ) (count : ℕ) (res : ℕ × ℕ × ℚ),
      s < minute →
      count = minute - s →
      sum = ∑ m ∈ Finset.Ico s minute, (rates m).getD 0 →
      (∀ m, s ≤ m → m < minute → (rates m).isSome) →
      (fh = true → minute - s ≤ 30) →
      fcwAccum rates thr fh s r0 minute fuel sum count = res →
      res.1 = s ∧ minute ≤ res.2.1 ∧
        (∀ m, s ≤ m → m < res.2.1 → (rates m).isSome) ∧
        res.2.2 = dp2 ((∑ m ∈ Finset.Ico s res.2.1, (rates m).getD 0)
          / ((res.2.1 - s : ℕ) : ℚ)) ∧
        (fh = true → res.2.1 - s ≤ 30) := by
  intro fuel
  induction fuel with
  | zero =>
      intro minute sum count res hlt hcount hsum hdef hfh hres
      simp only [fcwAccum] at hres
      subst hres
      exact ⟨rfl, le_refl _, hdef, by rw [hsum, hcount], hfh⟩
  | succ fuel ih =>
      intro minute sum count res hlt hcount hsum hdef hfh hres
      simp only [fcwAccum] at hres
      rcases hr : rates minute with _ | rate
      · simp only [hr] at hres
        subst hres
        exact ⟨rfl, le_refl _, hdef, by rw [hsum, hcount], hfh⟩
      · simp only [hr] at hres
        split_ifs at hres with hq hne h30
        · subst hres
          exact ⟨rfl, le_refl _, hdef, by rw [hsum, hcount], hfh⟩
        · subst hres
          exact ⟨rfl, le_refl _, hdef, by rw [hsum, hcount], hfh⟩
        · have hrec := ih (minute + 1) (sum + rate) (count + 1) res (by omega) (by omega)
            (by rw [Finset.sum_Ico_succ_top hlt.le, ← hsum, hr, Option.getD_some])
            (fun m hm1 hm2 => by
              rcases Nat.lt_succ_iff_lt_or_eq.mp hm2 with h | h
              · exact hdef m hm1 h
              · subst h
                rw [hr]
                rfl)
            (fun hfh2 => by
              rw [hfh2, Bool.true_and] at h30
              simp only [decide_eq_true_eq] at h30
              omega) hres
          exact ⟨hrec.1, Nat.le_of_succ_le hrec.2.1, hrec.2.2.1, hrec.2.2.2.1,
            hrec.2.2.2.2⟩
        · subst hres
          exact ⟨rfl, le_refl _, hdef, by rw [hsum, hcount], hfh⟩

theorem fcwSeek_spec (p : Params) (rates : ℕ → Option ℚ) (thr : ℚ) (fh : Bool) :
    ∀ (fuel minute s e : ℕ) (avg : ℚ),
      fcwSeek p rates thr fh minute fuel = some (s, e, avg) →
      minute ≤ s ∧ s < e ∧ (∀ m, s ≤ m → m < e → (rates m).isSome) ∧
        avg = dp2 ((∑ m ∈ Finset.Ico s e, (rates m).getD 0) / ((e - s : ℕ) : ℚ)) ∧
        (fh = true → e - s ≤ 30) := by
  intro fuel
  induction fuel with
  | zero =>
      intro minute s e avg h
      simp only [fcwSeek] at h
      exact Option.noConfusion h
  | succ fuel ih =>
      intro minute s e avg h
      simp only [fcwSeek] at h
      split_ifs at h with hfm
      rcases hr : rates minute with _ | rate
      · simp only [hr] at h
        exact Option.noConfusion h
      · simp only [hr] at h
        split_ifs at h with hq
        · rw [Option.some.injEq] at h
          obtain ⟨h1, h2, h3, h4, h5⟩ := fcwAccum_spec rates thr fh minute rate fuel
            (minute + 1) rate 1 (s, e, avg) (Nat.lt_succ_self minute) (by omega)
            (by rw [Nat.Ico_succ_singleton, Finset.sum_singleton, hr, Option.getD_some])
            (fun m hm1 hm2 => by
              have hm : m = minute := by omega
              subst hm
              rw [hr]
              rfl)
            (fun _ => by omega) h
          dsimp only at h1 h2 h3 h4 h5
          have hs : s = minute := h1
          subst hs
          exact ⟨le_refl _, by omega, h3, h4, h5⟩
        · obtain ⟨h1, h2, h3, h4, h5⟩ := ih (minute + 1) s e avg h
          exact ⟨by omega, h2, h3, h4, h5⟩

theorem find_charge_window_spec (p : Params) (rates : ℕ → Option ℚ) (thr : ℚ) (fh : Bool)
    (minute s e : ℕ) (avg : ℚ)
    (h : find_charge_window p rates minute thr fh = some (s, e, avg)) :
    minute ≤ s ∧ s < e ∧ (∀ m, s ≤ m → m < e → (rates m).isSome) ∧
      avg = dp2 ((∑ m ∈ Finset.Ico s e, (rates m).getD 0) / ((e - s : ℕ) : ℚ)) ∧
      (fh = true → e - s ≤ 30) :=
  fcwSeek_spec p rates thr fh (p.forecast_minutes + 12 * 60 - minute) minute s e avg h

theorem rswGo_succ_full (p : Params) (rates : ℕ → Option ℚ) (mw : ℕ) (thr : ℚ)
    (fh : Bool) (minute fuel : ℕ) (acc : List Window)
    (hfull : ¬ acc.length < MAX_CHARGE_LIMITS) :
    rswGo p rates mw thr fh minute (fuel + 1) acc = acc := by
  simp only [rswGo]
  rw [if_neg hfull]

theorem rswGo_succ_none (p : Params) (rates : ℕ → Option ℚ) (mw : ℕ) (thr : ℚ)
    (fh : Bool) (minute fuel : ℕ) (acc : List Window)
    (hf : find_charge_window p rates minute thr fh = none) :
    rswGo p rates mw thr fh minute (fuel + 1) acc = acc := by
  simp only [rswGo, hf]
  rw [ite_self]

theorem rswGo_succ_some (p : Params) (rates : ℕ → Option ℚ) (mw : ℕ) (thr : ℚ)
    (fh : Bool) (minute fuel : ℕ) (acc : List Window) (s e : ℕ) (avg : ℚ)
    (hf : find_charge_window p rates minute thr fh = some (s, e, avg))
    (hfull : acc.length < MAX_CHARGE_LIMITS) :
    rswGo p rates mw thr fh minute (fuel + 1) acc =
      rswGo p rates mw thr fh e fuel
        (if p.minutes_now ≤ e ∧ mw ≤ e - s then acc ++ [⟨s, e, avg⟩] else acc) := by
  simp only [rswGo, hf]
  rw [if_pos hfull]

theorem rswGo_invariant (p : Params) (rates : ℕ → Option ℚ) (mw : ℕ) (thr : ℚ)
    (fh : Bool) :
    ∀ (fuel minute : ℕ) (acc : List Window),
      acc.length ≤ MAX_CHARGE_LIMITS →
      (∀ w ∈ acc, w.end_ ≤ minute) →
      acc.Pairwise (fun a b => a.end_ ≤ b.start ∧ a.start < b.start) →
      (∀ w ∈ acc, w.start < w.end_ ∧ p.minutes_now ≤ w.end_ ∧ mw ≤ w.end_ - w.start ∧
        (∀ m, w.start ≤ m → m < w.end_ → (rates m).isSome) ∧
        w.average = dp2 ((∑ m ∈ Finset.Ico w.start w.end_, (rates m).getD 0)
          / ((w.end_ - w.start : ℕ) : ℚ)) ∧
        (fh = true → w.end_ - w.start ≤ 30)) →
      (rswGo p rates mw thr fh minute fuel acc).length ≤ MAX_CHARGE_LIMITS ∧
        (rswGo p rates mw thr fh minute fuel acc).Pairwise
          (fun a b => a.end_ ≤ b.start ∧ a.start < b.start) ∧
        (∀ w ∈ rswGo p rates mw thr fh minute fuel acc,
          w.start < w.end_ ∧ p.minutes_now ≤ w.end_ ∧ mw ≤ w.end_ - w.start ∧
          (∀ m, w.start ≤ m → m < w.end_ → (rates m).isSome) ∧
          w.average = dp2 ((∑ m ∈ Finset.Ico w.start w.end_, (rates m).getD 0)
            / ((w.end_ - w.start : ℕ) : ℚ)) ∧
          (fh = true → w.end_ - w.start ≤ 30)) := by
  intro fuel
  induction fuel with
  | zero =>
      intro minute acc hlen hend hpair hprops
      simp only [rswGo]
      exact ⟨hlen, hpair, hprops⟩
  | succ fuel ih =>
      intro minute acc hlen hend hpair hprops
      by_cases hfull : acc.length < MAX_CHARGE_LIMITS
      · rcases hf : find_charge_window p rates minute thr fh with _ | ⟨s, e, avg⟩
        · rw [rswGo_succ_none p rates mw thr fh minute fuel acc hf]
          exact ⟨hlen, hpair, hprops⟩
        · obtain ⟨hms, hse, hsome, havg, h30⟩ :=
            find_charge_window_spec p rates thr fh minute s e avg hf
          rw [rswGo_succ_some p rates mw thr fh minute fuel acc s e avg hf hfull]
          split_ifs with hkeep
          · refine ih e (acc ++ [⟨s, e, avg⟩]) ?_ ?_ ?_ ?_
            · rw [List.length_append, List.length_singleton]
              omega
            · intro w hw
              rcases List.mem_append.mp hw with hw | hw
              · have := hend w hw
                omega
              · rw [List.mem_singleton.mp hw]
            · rw [List.pairwise_append]
              refine ⟨hpair, List.pairwise_singleton _ _, ?_⟩
              intro a ha b hb
              rw [List.mem_singleton.mp hb]
              have h1 := hend a ha
              have h2 := (hprops a ha).1
              exact ⟨by simp only []; omega, by simp only []; omega⟩
            · intro w hw
              rcases List.mem_append.mp hw with hw | hw
              · exact hprops w hw
              · rw [List.mem_singleton.mp hw]
                exact ⟨hse, hkeep.1, hkeep.2, hsome, havg, fun hfh => h30 hfh⟩
          · refine ih e acc ?_ ?_ hpair hprops
            · exact hlen
            · intro w hw
              have := hend w hw
              omega
      · rw [rswGo_succ_full p rates mw thr fh minute fuel acc hfull]
        exact ⟨hlen, hpair, hprops⟩


theorem scanEval0 : find_charge_window pTriv scanRates 0 1 false = some (0, 3, 1) := by
  have hdp : dp2 (1 : ℚ) = 1 := dp2_of_mul_eq_int 1 100 (by norm_num)
  rw [find_charge_window]
  have hfuel : pTriv.forecast_minutes + 12 * 60 - 0 = 724 + 1 := by norm_num [pTriv]
  rw [hfuel]
  norm_num [fcwSeek, fcwAccum, scanRates, rateQualifies, pTriv, hdp]

theorem scanEval3 : find_charge_window pTriv scanRates 3 1 false = none := by
  rw [find_charge_window]
  have hfuel : pTriv.forecast_minutes + 12 * 60 - 3 = 721 + 1 := by norm_num [pTriv]
  rw [hfuel]
  norm_num [fcwSeek, scanRates, pTriv]

theorem rswEval : rate_scan_window pTriv scanRates 3 1 false = [⟨0, 3, 1⟩] := by
  rw [rate_scan_window]
  have hfuel : pTriv.forecast_minutes + 12 * 60 + 2 = 726 + 1 := by norm_num [pTriv]
  rw [hfuel]
  rw [rswGo_succ_some pTriv scanRates 3 1 false 0 726 [] 0 3 1 scanEval0
    (by norm_num [MAX_CHARGE_LIMITS])]
  rw [if_pos (show pTriv.minutes_now ≤ 3 ∧ 3 ≤ 3 - 0 by norm_num [pTriv])]
  rw [show (726 : ℕ) = 725 + 1 by norm_num]
  rw [rswGo_succ_none pTriv scanRates 3 1 false 3 725 _ scanEval3]
  simp

/-- C6: every window list returned by the scanner consists of pairwise
non-overlapping windows with strictly increasing starts; each returned
window covers only minutes present in the rate dictionary and its average
is the 2-dp rounding of the mean rate over the covered minutes; and with
`find_high` set every returned window is at most 30 minutes long. -/
theorem rate_scan_window_sound (p : Params) (rates : ℕ → Option ℚ) (mw : ℕ) (thr : ℚ)
    (fh : Bool) :
    (rate_scan_window p rates mw thr fh).Pairwise
        (fun a b => a.end_ ≤ b.start ∧ a.start < b.start)
      ∧ ∀ w ∈ rate_scan_window p rates mw thr fh,
          (∀ m, w.start ≤ m → m < w.end_ → (rates m).isSome)
          ∧ w.average = dp2 ((∑ m ∈ Finset.Ico w.start w.end_, (rates m).getD 0)
              / ((w.end_ - w.start : ℕ) : ℚ))
          ∧ (fh = true → w.end_ - w.start ≤ 30) := by
  simp only [rate_scan_window]
  obtain ⟨h1, h2, h3⟩ := rswGo_invariant p rates mw thr fh
    (p.forecast_minutes + 12 * 60 + 2) 0 [] (by simp [MAX_CHARGE_LIMITS]) (by simp)
    List.Pairwise.nil (by simp)
  exact ⟨h2, fun w hw =>
    ⟨(h3 w hw).2.2.2.1, (h3 w hw).2.2.2.2.1, (h3 w hw).2.2.2.2.2⟩⟩

theorem rate_scan_window_sound_witness :
    rate_scan_window pTriv scanRates 3 1 false = [⟨0, 3, 1⟩]
      ∧ ((∀ m, (0 : ℕ) ≤ m → m < 3 → (scanRates m).isSome)
        ∧ (1 : ℚ) = dp2 ((∑ m ∈ Finset.Ico (0 : ℕ) 3, (scanRates m).getD 0)
            / ((3 - 0 : ℕ) : ℚ))
        ∧ (false = true → (3 : ℕ) - 0 ≤ 30)) := by
  refine ⟨rswEval, ?_⟩
  exact (rate_scan_window_sound pTriv scanRates 3 1 false).2 ⟨0, 3, 1⟩
    (by rw [rswEval]; exact List.mem_singleton_self _)

/-- C7: the scanner returns at most `MAX_CHARGE_LIMITS = 16` windows, and
every returned window ends at or after `minutes_now` and is at least the
minimum window length. -/
theorem rate_scan_window_bounds (p : Params) (rates : ℕ → Option ℚ) (mw : ℕ) (thr : ℚ)
    (fh : Bool) :
    (rate_scan_window p rates mw thr fh).length ≤ MAX_CHARGE_LIMITS
      ∧ ∀ w ∈ rate_scan_window p rates mw thr fh,
          p.minutes_now ≤ w.end_ ∧ mw ≤ w.end_ - w.start := by
  simp only [rate_scan_window]
  obtain ⟨h1, h2, h3⟩ := rswGo_invariant p rates mw thr fh
    (p.forecast_minutes + 12 * 60 + 2) 0 [] (by simp [MAX_CHARGE_LIMITS]) (by simp)
    List.Pairwise.nil (by simp)
  exact ⟨h1, fun w hw => ⟨(h3 w hw).2.1, (h3 w hw).2.2.1⟩⟩

theorem rate_scan_window_bounds_witness :
    (rate_scan_window pTriv scanRates 3 1 false).length ≤ MAX_CHARGE_LIMITS
      ∧ (pTriv.minutes_now ≤ 3 ∧ (3 : ℕ) ≤ 3 - 0) := by
  refine ⟨(rate_scan_window_bounds pTriv scanRates 3 1 false).1, ?_⟩
  exact (rate_scan_window_bounds pTriv scanRates 3 1 false).2 ⟨0, 3, 1⟩
    (by rw [rswEval]; exact List.mem_singleton_self _)


theorem predEvalA :
    run_prediction P3 [1] [⟨0, 15, 0⟩] [⟨10, 13, 0⟩] [true] (fun _ => some 0)
      (fun _ => none) 5 =
      some { metric := 1, charge_limit_percent := [100], import_kwh_battery := 1,
             import_kwh_house := 0, export_kwh := 3 / 10, soc_min := 7 / 10,
             final_soc := 7 / 10 } := by
  norm_num [run_prediction, record_length, max_charge_windows, mcwGo, runSim,
    initSimState, stepSim, P3, pTriv, pvStep, loadStep, get_from_incrementing,
    in_charge_window, icwGo, winContains, loadCarCalc, loadOctCalc, branchCalc,
    elifBranch, chargeBranchCalc, dischargeBranchCalc, idleBranchCalc,
    reserveClampCalc, socMaxClampCalc, assembleState, in_octopus_slot, iosGo,
    rateOr, pyDiv, charge_limit_percent_calc, intTrunc]


theorem predEvalB :
    run_prediction P3 [1 / 2] [⟨0, 15, 0⟩] [⟨10, 13, 0⟩] [true] (fun _ => some 0)
      (fun _ => none) 5 =
      some { metric := 1 / 2, charge_limit_percent := [50], import_kwh_battery := 1 / 2,
             import_kwh_house := 0, export_kwh := 3 / 10, soc_min := 1 / 5,
             final_soc := 1 / 5 } := by
  norm_num [run_prediction, record_length, max_charge_windows, mcwGo, runSim,
    initSimState, stepSim, P3, pTriv, pvStep, loadStep, get_from_incrementing,
    in_charge_window, icwGo, winContains, loadCarCalc, loadOctCalc, branchCalc,
    elifBranch, chargeBranchCalc, dischargeBranchCalc, idleBranchCalc,
    reserveClampCalc, socMaxClampCalc, assembleState, in_octopus_slot, iosGo,
    rateOr, pyDiv, charge_limit_percent_calc, intTrunc]

theorem predEvalC :
    run_prediction P3 [0] [⟨0, 15, 0⟩] [⟨10, 13, 0⟩] [true] (fun _ => some 0)
      (fun _ => none) 5 =
      some { metric := 0, charge_limit_percent := [0], import_kwh_battery := 0,
             import_kwh_house := 0, export_kwh := 0, soc_min := 1,
             final_soc := 0 } := by
  norm_num [run_prediction, record_length, max_charge_windows, mcwGo, runSim,
    initSimState, stepSim, P3, pTriv, pvStep, loadStep, get_from_incrementing,
    in_charge_window, icwGo, winContains, loadCarCalc, loadOctCalc, branchCalc,
    elifBranch, chargeBranchCalc, dischargeBranchCalc, idleBranchCalc,
    reserveClampCalc, socMaxClampCalc, assembleState, in_octopus_slot, iosGo,
    rateOr, pyDiv, charge_limit_percent_calc, intTrunc]

theorem ceil_eq_neg_floor_neg (a : ℚ) : ⌈a⌉ = -⌊-a⌋ := by
  rw [Int.floor_neg, neg_neg]

theorem candEvalA :
    candEval P3 0 [0] [⟨0, 15, 0⟩] [⟨10, 13, 0⟩] [true] (fun _ => some 0)
      (fun _ => none) (fun _ => none) 1 = some (1, -13, 1, 7 / 10) := by
  have hrm : P3.rate_min = 20 := rfl
  norm_num [candEval, predEvalA, hrm]

theorem candEvalB :
    candEval P3 0 [0] [⟨0, 15, 0⟩] [⟨10, 13, 0⟩] [true] (fun _ => some 0)
      (fun _ => none) (fun _ => none) (1 / 2) = some (1 / 2, -7 / 2, 1 / 2, 1 / 5) := by
  have hrm : P3.rate_min = 20 := rfl
  norm_num [candEval, predEvalB, hrm]

theorem candEvalC :
    candEval P3 0 [0] [⟨0, 15, 0⟩] [⟨10, 13, 0⟩] [true] (fun _ => some 0)
      (fun _ => none) (fun _ => none) 0 = some (0, 0, 0, 1) := by
  have hrm : P3.rate_min = 20 := rfl
  norm_num [candEval, predEvalC, hrm]

theorem triedEval :
    triedCandidates P3 0 [0] [⟨0, 15, 0⟩] [⟨10, 13, 0⟩] [true] (fun _ => some 0)
      (fun _ => none) (fun _ => none) = some candsP3 := by
  rw [triedCandidates]
  have h1 : (⌊P3.soc_max * 10⌋).toNat + 2 = 12 := by
    norm_num [P3, pTriv]
    decide
  have h2 : P3.soc_max = 1 := by norm_num [P3, pTriv]
  have h3 : P3.best_soc_min = 0 := by norm_num [P3, pTriv]
  have h4 : P3.reserve = 0 := by norm_num [P3, pTriv]
  have h5 : P3.best_soc_step = 1 / 2 := by norm_num [P3, pTriv]
  rw [h1, h2]
  norm_num [triedCandidatesGo, candsP3, candEvalA, candEvalB, candEvalC, h2, h3, h4, h5,
    dp2, ceil_eq_neg_floor_neg]

theorem optEval :
    optimise_charge_limit P3 0 1 [0] [⟨0, 15, 0⟩] [⟨10, 13, 0⟩] [true] (fun _ => some 0)
      (fun _ => none) (fun _ => none) = some (1, -13, 1, 7 / 10) := by
  rw [optimise_charge_limit, triedEval]
  norm_num [candsP3, pyDiv, selStep, P3, pTriv]

theorem claimedEval : claimedBestSoc P3 1 candsP3 = some 0 := by
  norm_num [claimedBestSoc, candsP3, claimedSelStep, pyDiv, P3, pTriv]


/-- C3 (counterexample): with `best_soc_keep = 3/4`, the code selects the
first candidate (SOC 1) although its simulated `soc_min = 7/10` violates
the keep threshold, because line 1498 bypasses the keep test while
`best_metric` is still the 9999999 sentinel; the strict rule of the claim
would select the lowest candidate 0 instead. -/
theorem optimise_charge_limit_keep_counterexample :
    optimise_charge_limit P3 0 1 [0] [⟨0, 15, 0⟩] [⟨10, 13, 0⟩] [true] (fun _ => some 0)
        (fun _ => none) (fun _ => none) = some (1, -13, 1, 7 / 10)
      ∧ triedCandidates P3 0 [0] [⟨0, 15, 0⟩] [⟨10, 13, 0⟩] [true] (fun _ => some 0)
          (fun _ => none) (fun _ => none) = some candsP3
      ∧ claimedBestSoc P3 1 candsP3 = some 0
      ∧ (7 / 10 : ℚ) < P3.best_soc_keep
      ∧ (1 : ℚ) ≠ 0 := by
  refine ⟨optEval, triedEval, claimedEval, ?_, by norm_num⟩
  norm_num [P3, pTriv]

theorem candEval_fst (p : Params) (wn : ℕ) (tcl : List ℚ) (cw dw : List Window)
    (de : List Bool) (load pv pv10 : ℕ → Option ℚ) (try_soc : ℚ) (c : ℚ × ℚ × ℚ × ℚ)
    (h : candEval p wn tcl cw dw de load pv pv10 try_soc = some c) : c.1 = try_soc := by
  simp only [candEval] at h
  repeat' split at h
  all_goals first
    | exact Option.noConfusion h
    | (rw [Option.some.injEq] at h
       subst h
       rfl)

theorem tried_socs_bounded (p : Params) (wn : ℕ) (tcl : List ℚ) (cw dw : List Window)
    (de : List Bool) (load pv pv10 : ℕ → Option ℚ) :
    ∀ (fuel : ℕ) (loop prev : ℚ) (cands : List (ℚ × ℚ × ℚ × ℚ)),
      triedCandidatesGo p wn tcl cw dw de load pv pv10 fuel loop prev = some cands →
      (∀ c ∈ cands, c.1 < prev) ∧ (cands.map (fun c => c.1)).Pairwise (· > ·) := by
  intro fuel
  induction fuel with
  | zero =>
      intro loop prev cands h
      simp only [triedCandidatesGo] at h
      rw [Option.some.injEq] at h
      subst h
      exact ⟨by simp, by simp⟩
  | succ fuel ih =>
      intro loop prev cands h
      simp only [triedCandidatesGo] at h
      split_ifs at h with hneg hbreak
      · rw [Option.some.injEq] at h
        subst h
        exact ⟨by simp, by simp⟩
      · rw [Option.some.injEq] at h
        subst h
        exact ⟨by simp, by simp⟩
      · rcases hce : candEval p wn tcl cw dw de load pv pv10
            (dp2 (min (max (max p.best_soc_min loop) p.reserve) p.soc_max)) with _ | cand
        · simp only [hce] at h
          exact Option.noConfusion h
        · simp only [hce] at h
          rcases hrest : triedCandidatesGo p wn tcl cw dw de load pv pv10 fuel
              (loop - max p.best_soc_step (1 / 10))
              (dp2 (min (max (max p.best_soc_min loop) p.reserve) p.soc_max)) with _ | rest
          · simp only [hrest] at h
            exact Option.noConfusion h
          · simp only [hrest] at h
            rw [Option.some.injEq] at h
            subst h
            obtain ⟨ih1, ih2⟩ := ih _ _ _ hrest
            have hfst := candEval_fst p wn tcl cw dw de load pv pv10 _ _ hce
            constructor
            · intro c hc
              rcases List.mem_cons.mp hc with hc | hc
              · rw [hc, hfst]
                exact not_le.mp hbreak
              · exact lt_trans (ih1 c hc) (not_le.mp hbreak)
            · rw [List.map_cons]
              refine List.Pairwise.cons ?_ ih2
              intro b hb
              rw [hfst]
              obtain ⟨c, hc, rfl⟩ := List.mem_map.mp hb
              exact ih1 c hc

theorem selStep_or (keep thr : ℚ) (b c : ℚ × ℚ × ℚ × ℚ) :
    selStep keep thr b c = b ∨ selStep keep thr b c = c := by
  rw [selStep]
  split_ifs
  · exact Or.inr rfl
  · exact Or.inl rfl

theorem foldl_sel_mem (keep thr : ℚ) :
    ∀ (cands : List (ℚ × ℚ × ℚ × ℚ)) (init : ℚ × ℚ × ℚ × ℚ),
      cands.foldl (selStep keep thr) init = init ∨
        cands.foldl (selStep keep thr) init ∈ cands := by
  intro cands
  induction cands with
  | nil =>
      intro init
      exact Or.inl rfl
  | cons c rest ih =>
      intro init
      rw [List.foldl_cons]
      rcases selStep_or keep thr init c with h | h
      · rw [h]
        rcases ih init with h2 | h2
        · exact Or.inl h2
        · exact Or.inr (List.mem_cons_of_mem c h2)
      · rw [h]
        rcases ih c with h2 | h2
        · rw [h2]
          exact Or.inr (List.mem_cons_self c rest)
        · exact Or.inr (List.mem_cons_of_mem c h2)

theorem foldl_sel_stay (keep thr : ℚ) :
    ∀ (cands : List (ℚ × ℚ × ℚ × ℚ)) (init : ℚ × ℚ × ℚ × ℚ),
      (∀ c ∈ cands, c.1 < init.1) →
      cands.foldl (selStep keep thr) init = init →
      ∀ c ∈ cands, selStep keep thr init c = init := by
  intro cands
  induction cands with
  | nil =>
      intro init _ _ c hc
      exact absurd hc (List.not_mem_nil c)
  | cons c rest ih =>
      intro init hlow hfold d hd
      rw [List.foldl_cons] at hfold
      rcases selStep_or keep thr init c with h | h
      · rw [h] at hfold
        rcases List.mem_cons.mp hd with hd | hd
        · rw [hd]
          exact h
        · exact ih init (fun x hx => hlow x (List.mem_cons_of_mem c hx)) hfold d hd
      · rw [h] at hfold
        rcases foldl_sel_mem keep thr rest c with h2 | h2
        · have hic : init = c := by rw [← hfold, h2]
          have hc1 := hlow c (List.mem_cons_self c rest)
          rw [← hic] at hc1
          exact absurd hc1 (lt_irrefl _)
        · have := hlow _ (List.mem_cons_of_mem c h2)
          rw [hfold] at this
          exact absurd this (lt_irrefl _)

theorem foldl_sel_lowest (keep thr : ℚ) :
    ∀ (cands : List (ℚ × ℚ × ℚ × ℚ)) (init : ℚ × ℚ × ℚ × ℚ),
      (cands.map (fun c => c.1)).Pairwise (· > ·) →
      cands.foldl (selStep keep thr) init = init ∨
        (cands.foldl (selStep keep thr) init ∈ cands ∧
          ∀ c ∈ cands, c.1 < (cands.foldl (selStep keep thr) init).1 →
            selStep keep thr (cands.foldl (selStep keep thr) init) c =
              cands.foldl (selStep keep thr) init) := by
  intro cands
  induction cands with
  | nil =>
      intro init _
      exact Or.inl rfl
  | cons c rest ih =>
      intro init hpair
      rw [List.map_cons, List.pairwise_cons] at hpair
      obtain ⟨hhead, htail⟩ := hpair
      rw [List.foldl_cons]
      rcases selStep_or keep thr init c with h | h
      · rw [h]
        rcases ih init htail with h2 | h2
        · exact Or.inl h2
        · obtain ⟨hmem, hlow⟩ := h2
          refine Or.inr ⟨List.mem_cons_of_mem c hmem, ?_⟩
          intro d hd hlt
          rcases List.mem_cons.mp hd with hd | hd
          · rw [hd] at hlt
            have := hhead _ (List.mem_map.mpr ⟨_, hmem, rfl⟩)
            exact absurd hlt (not_lt.mpr (le_of_lt this))
          · exact hlow d hd hlt
      · rw [h]
        rcases foldl_sel_mem keep thr rest c with h2 | h2
        · rw [h2]
          refine Or.inr ⟨List.mem_cons_self c rest, ?_⟩
          intro d hd hlt
          rcases List.mem_cons.mp hd with hd | hd
          · rw [hd] at hlt
            exact absurd hlt (lt_irrefl _)
          · exact foldl_sel_stay keep thr rest c
              (fun x hx => hhead _ (List.mem_map.mpr ⟨x, hx, rfl⟩)) h2 d hd
        · refine Or.inr ⟨List.mem_cons_of_mem c h2, ?_⟩
          intro d hd hlt
          rcases List.mem_cons.mp hd with hd | hd
          · rw [hd] at hlt
            have := hhead _ (List.mem_map.mpr ⟨_, h2, rfl⟩)
            exact absurd hlt (not_lt.mpr (le_of_lt this))
          · rcases ih c htail with h3 | h3
            · rw [h3] at h2
              have := hhead _ (List.mem_map.mpr ⟨_, h2, rfl⟩)
              exact absurd this (lt_irrefl _)
            · exact h3.2 d hd hlt

/-- C3 (corrected): the code takes a candidate when its metric beats the
best seen by at least `metric_min_improvement / record_charge_windows`
AND either no candidate has been taken yet (`best_metric` is still the
9999999 sentinel) or its `soc_min` is at least `best_soc_keep` — so,
against the claim, the first taken candidate may violate the keep
threshold. Amended: (a) the function is the margin-clamped fold of this
selection over the tried candidates; (b) the tried SOCs strictly
decrease; (c) the fold ends on the initial state or on a tried candidate
that no lower tried candidate displaces — the lowest taken one. -/
theorem optimise_charge_limit_selection :
    (∀ (p : Params) (wn rcw : ℕ) (tcl : List ℚ) (cw dw : List Window) (de : List Bool)
      (load pv pv10 : ℕ → Option ℚ) (c : ℚ × ℚ × ℚ × ℚ) (rest : List (ℚ × ℚ × ℚ × ℚ))
      (thr : ℚ),
      triedCandidates p wn tcl cw dw de load pv pv10 = some (c :: rest) →
      pyDiv p.metric_min_improvement ((rcw : ℕ) : ℚ) = some thr →
      optimise_charge_limit p wn rcw tcl cw dw de load pv pv10 =
        some (min (((c :: rest).foldl (selStep p.best_soc_keep thr)
            (p.soc_max, (9999999 : ℚ), 0, p.soc_max)).1 + p.best_soc_margin) p.soc_max,
          ((c :: rest).foldl (selStep p.best_soc_keep thr)
            (p.soc_max, (9999999 : ℚ), 0, p.soc_max)).2.1,
          ((c :: rest).foldl (selStep p.best_soc_keep thr)
            (p.soc_max, (9999999 : ℚ), 0, p.soc_max)).2.2.1,
          ((c :: rest).foldl (selStep p.best_soc_keep thr)
            (p.soc_max, (9999999 : ℚ), 0, p.soc_max)).2.2.2))
    ∧ (∀ (p : Params) (wn : ℕ) (tcl : List ℚ) (cw dw : List Window) (de : List Bool)
      (load pv pv10 : ℕ → Option ℚ) (cands : List (ℚ × ℚ × ℚ × ℚ)),
      triedCandidates p wn tcl cw dw de load pv pv10 = some cands →
      (cands.map (fun c => c.1)).Pairwise (· > ·))
    ∧ (∀ (keep thr : ℚ) (init : ℚ × ℚ × ℚ × ℚ) (cands : List (ℚ × ℚ × ℚ × ℚ)),
      (cands.map (fun c => c.1)).Pairwise (· > ·) →
      cands.foldl (selStep keep thr) init = init ∨
        (cands.foldl (selStep keep thr) init ∈ cands ∧
          ∀ c ∈ cands, c.1 < (cands.foldl (selStep keep thr) init).1 →
            selStep keep thr (cands.foldl (selStep keep thr) init) c =
              cands.foldl (selStep keep thr) init)) := by
  refine ⟨?_, ?_, ?_⟩
  · intro p wn rcw tcl cw dw de load pv pv10 c rest thr htried hthr
    simp only [optimise_charge_limit, htried, hthr]
  · intro p wn tcl cw dw de load pv pv10 cands h
    rw [triedCandidates] at h
    exact (tried_socs_bounded p wn tcl cw dw de load pv pv10 _ _ _ _ h).2
  · intro keep thr init cands hpair
    exact foldl_sel_lowest keep thr cands init hpair

theorem optimise_charge_limit_selection_witness :
    optimise_charge_limit P3 0 1 [0] [⟨0, 15, 0⟩] [⟨10, 13, 0⟩] [true] (fun _ => some 0)
        (fun _ => none) (fun _ => none) =
      some (min ((candsP3.foldl (selStep P3.best_soc_keep 0)
          (P3.soc_max, (9999999 : ℚ), 0, P3.soc_max)).1 + P3.best_soc_margin) P3.soc_max,
        (candsP3.foldl (selStep P3.best_soc_keep 0)
          (P3.soc_max, (9999999 : ℚ), 0, P3.soc_max)).2.1,
        (candsP3.foldl (selStep P3.best_soc_keep 0)
          (P3.soc_max, (9999999 : ℚ), 0, P3.soc_max)).2.2.1,
        (candsP3.foldl (selStep P3.best_soc_keep 0)
          (P3.soc_max, (9999999 : ℚ), 0, P3.soc_max)).2.2.2)
      ∧ (candsP3.map (fun c => c.1)).Pairwise (· > ·)
      ∧ (candsP3.foldl (selStep P3.best_soc_keep 0)
            (P3.soc_max, (9999999 : ℚ), 0, P3.soc_max) =
            (P3.soc_max, (9999999 : ℚ), 0, P3.soc_max) ∨
          (candsP3.foldl (selStep P3.best_soc_keep 0)
              (P3.soc_max, (9999999 : ℚ), 0, P3.soc_max) ∈ candsP3 ∧
            ∀ c ∈ candsP3, c.1 < (candsP3.foldl (selStep P3.best_soc_keep 0)
                (P3.soc_max, (9999999 : ℚ), 0, P3.soc_max)).1 →
              selStep P3.best_soc_keep 0 (candsP3.foldl (selStep P3.best_soc_keep 0)
                (P3.soc_max, (9999999 : ℚ), 0, P3.soc_max)) c =
                candsP3.foldl (selStep P3.best_soc_keep 0)
                  (P3.soc_max, (9999999 : ℚ), 0, P3.soc_max))) := by
  obtain ⟨h1, h2, h3⟩ := optimise_charge_limit_selection
  have hthr : pyDiv P3.metric_min_improvement ((1 : ℕ) : ℚ) = some 0 := by
    norm_num [pyDiv, P3, pTriv]
  refine ⟨?_, ?_, ?_⟩
  · exact h1 P3 0 1 [0] [⟨0, 15, 0⟩] [⟨10, 13, 0⟩] [true] (fun _ => some 0)
      (fun _ => none) (fun _ => none) (1, -13, 1, 7 / 10)
      [(1 / 2, -7 / 2, 1 / 2, 1 / 5), (0, 0, 0, 1)] 0 triedEval hthr
  · exact h2 P3 0 [0] [⟨0, 15, 0⟩] [⟨10, 13, 0⟩] [true] (fun _ => some 0)
      (fun _ => none) (fun _ => none) candsP3 triedEval
  · exact h3 P3.best_soc_keep 0 (P3.soc_max, (9999999 : ℚ), 0, P3.soc_max) candsP3
      (by norm_num [candsP3])

end Predbat
